import Mathlib

set_option maxRecDepth 100000

/-!
Shallow embedding of `src/SCC.py` (Metashape sparse-cloud-cleanup tool).

Conventions of the embedding:
* Python machine floats are idealised as exact rationals (`ℚ`);
* `int(x)` is truncation toward zero (`pyTrunc`);
* Python list indexing is partial: out-of-range access is an uncaught
  `IndexError`, modelled by `Option`/`Except`;
* the external Metashape engine (bundle adjustment, per-point error
  evaluation, RMS computation) is a black box: it is carried as explicit
  function parameters, and its point-removal contract is modelled from the
  spec where noted;
* rational arithmetic is expressed through the kernel-computable helpers
  `qmul`/`qdiv`/`qsub` (numerator/denominator form); the lemmas
  `qmul_eq`/`qdiv_eq`/`qsub_eq` prove them equal to `*`/`/`/`-` on `ℚ`.
-/

/-- Python `int(q)` applied to a (finite) float value: truncation toward
zero, computed on the reduced numerator/denominator. -/
def pyTrunc (q : ℚ) : ℤ := q.num.tdiv q.den

/-- Python `xs[i]` for an `int` index `i`: a negative index addresses from
the end of the list, an out-of-range index raises `IndexError` (`none`). -/
def pyGet (l : List ℚ) (i : ℤ) : Option ℚ :=
  if 0 ≤ i then l[i.toNat]?
  else if (-i).toNat ≤ l.length then l[l.length - (-i).toNat]? else none

/-- Kernel-computable product of two rationals (see `qmul_eq`). -/
def qmul (a b : ℚ) : ℚ := Rat.divInt (a.num * b.num) ((a.den : ℤ) * (b.den : ℤ))

/-- Kernel-computable quotient of two rationals (see `qdiv_eq`). -/
def qdiv (a b : ℚ) : ℚ := Rat.divInt (a.num * (b.den : ℤ)) ((a.den : ℤ) * b.num)

/-- Kernel-computable difference of two rationals (see `qsub_eq`). -/
def qsub (a b : ℚ) : ℚ :=
  Rat.divInt (a.num * (b.den : ℤ) - b.num * (a.den : ℤ)) ((a.den : ℤ) * (b.den : ℤ))

theorem qmul_eq (a b : ℚ) : qmul a b = a * b := by
  have had : ((a.den : ℚ)) ≠ 0 := Nat.cast_ne_zero.mpr a.den_nz
  have hbd : ((b.den : ℚ)) ≠ 0 := Nat.cast_ne_zero.mpr b.den_nz
  have hA : ((a.num : ℚ)) = a * a.den := (div_eq_iff had).mp (Rat.num_div_den a)
  have hB : ((b.num : ℚ)) = b * b.den := (div_eq_iff hbd).mp (Rat.num_div_den b)
  rw [qmul, Rat.divInt_eq_div]
  push_cast
  rw [hA, hB, div_eq_iff (mul_ne_zero had hbd)]
  ring

theorem qdiv_eq (a b : ℚ) : qdiv a b = a / b := by
  have had : ((a.den : ℚ)) ≠ 0 := Nat.cast_ne_zero.mpr a.den_nz
  have hbd : ((b.den : ℚ)) ≠ 0 := Nat.cast_ne_zero.mpr b.den_nz
  rcases eq_or_ne b 0 with hb | hb
  · subst hb
    simp [qdiv]
  · have hA : ((a.num : ℚ)) = a * a.den := (div_eq_iff had).mp (Rat.num_div_den a)
    have hB : ((b.num : ℚ)) = b * b.den := (div_eq_iff hbd).mp (Rat.num_div_den b)
    rw [qdiv, Rat.divInt_eq_div]
    push_cast
    rw [hA, hB, div_eq_div_iff (mul_ne_zero had (mul_ne_zero hb hbd)) hb]
    ring

theorem qsub_eq (a b : ℚ) : qsub a b = a - b := by
  have had : ((a.den : ℚ)) ≠ 0 := Nat.cast_ne_zero.mpr a.den_nz
  have hbd : ((b.den : ℚ)) ≠ 0 := Nat.cast_ne_zero.mpr b.den_nz
  have hA : ((a.num : ℚ)) = a * a.den := (div_eq_iff had).mp (Rat.num_div_den a)
  have hB : ((b.num : ℚ)) = b * b.den := (div_eq_iff hbd).mp (Rat.num_div_den b)
  rw [qsub, Rat.divInt_eq_div]
  push_cast
  rw [hA, hB, div_eq_iff (mul_ne_zero had hbd)]
  ring

theorem pyTrunc_of_nonneg {q : ℚ} (h : 0 ≤ q) : pyTrunc q = ⌊q⌋ := by
  rw [pyTrunc, Rat.floor_def]
  exact Int.tdiv_eq_ediv (Rat.num_nonneg.mpr h) (Int.ofNat_nonneg q.den)

/-- `int(len(list_values_valid) * (n / 100))` at candidate fraction
`n = k / mfac` with `mfac = 100` (SCC.py lines 1239-1245), computed in
exact natural arithmetic; `pyIdx_spec` identifies it with the literal
transcription of the source expression. -/
def pyIdx (len k : ℕ) : ℕ := len * k / 10000

theorem pyIdx_spec (len k : ℕ) :
    (pyIdx len k : ℤ) = pyTrunc ((len : ℚ) * ((k : ℚ) / 100 / 100)) := by
  have hq : (len : ℚ) * ((k : ℚ) / 100 / 100) = ((len * k : ℤ) : ℚ) / ((10000 : ℕ) : ℚ) := by
    push_cast
    ring
  have h0 : (0 : ℚ) ≤ (len : ℚ) * ((k : ℚ) / 100 / 100) := by
    rw [hq]
    positivity
  rw [pyTrunc_of_nonneg h0, hq, Rat.floor_intCast_div_natCast, pyIdx]
  push_cast [Int.natCast_div]
  ring_nf

/-- State of the candidate-fraction scan of the percentile variants: the
local variables `threshold` and `fin` of `executeStep`, plus `overflow`
recording whether the `IndexError` handler at lines 1260-1262 ever ran. -/
structure ScanState where
  threshold : Option ℚ
  fin : Bool
  overflow : Bool
deriving DecidableEq, Repr, Inhabited

/-- The candidate-fraction loop of the percentile variants (SCC.py lines
1242-1265).  `fuel` counts the remaining scan steps; the current counter is
`k = lo + fuel - 1`, so `k` descends from `9999` to `lo`
(`for n in reversed(range(100*mfac - int(target_percent)*mfac, 100*mfac, 1))`).
Each step reads `threshold = list_values_valid[int(len * (n/100))]`
(an uncaught `IndexError` yields `none`); if `threshold < target_threshold`
the back-off index `int(len * (n + 1/mfac) / 100)` is tried: on success the
loop breaks with `fin = True`, on `IndexError` it sets `threshold = None`,
`fin = True` and keeps scanning. -/
def scanBody (D : List ℚ) (t : ℚ) (lo : ℕ) : ℕ → ScanState → Option ScanState
  | 0, s => some s
  | fuel + 1, s =>
    let k := lo + fuel
    match D[pyIdx D.length k]? with
    | none => none
    | some v =>
      if v < t then
        match D[pyIdx D.length (k + 1)]? with
        | some w => some ⟨some w, true, s.overflow⟩
        | none => scanBody D t lo fuel ⟨none, true, true⟩
      else
        scanBody D t lo fuel ⟨some v, s.fin, s.overflow⟩

/-- `100*mfac - int(target_percent)*mfac` (line 1242), clamped at zero as a
natural number; faithful for `0 ≤ target_percent ≤ 100`. -/
def scanLo (p : ℚ) : ℕ := 10000 - 100 * (pyTrunc p).toNat

/-- The full percentile-descent threshold search for one round: the scan of
lines 1240-1266 starting from the loop-carried values of `threshold`/`fin`. -/
def percentileSearch (D : List ℚ) (t p : ℚ) (s : ScanState) : Option ScanState :=
  scanBody D t (scanLo p) (10000 - scanLo p) s

theorem pyIdx_lt {len : ℕ} (hlen : 1 ≤ len) {k : ℕ} (hk : k < 10000) : pyIdx len k < len := by
  rw [pyIdx, Nat.div_lt_iff_lt_mul (by norm_num : (0 : ℕ) < 10000)]
  exact mul_lt_mul_of_pos_left hk (by omega)

theorem pyIdx_9999 {len : ℕ} (h1 : 1 ≤ len) (h2 : len ≤ 10000) :
    pyIdx len 9999 = len - 1 := by
  rw [pyIdx]
  apply Nat.div_eq_of_lt_le <;> omega

theorem pyIdx_10000 {len : ℕ} : pyIdx len 10000 = len := by
  simp [pyIdx]

theorem sorted_getElem_le_getLast {D : List ℚ} (hs : List.Sorted (fun a b => a ≤ b) D)
    (hne : D ≠ []) {i : ℕ} (hi : i < D.length) : D[i] ≤ D.getLast hne := by
  rw [List.getLast_eq_getElem]
  have hi2 : D.length - 1 < D.length := by
    have := List.length_pos.mpr hne
    omega
  have hle : (⟨i, hi⟩ : Fin D.length) ≤ ⟨D.length - 1, hi2⟩ := by
    simp only [Fin.mk_le_mk]
    omega
  have := hs.rel_get_of_le hle
  simpa [List.get_eq_getElem] using this

theorem scanBody_descent {D : List ℚ} {t : ℚ} {lo : ℕ} (hlen : 1 ≤ D.length) (fuel : ℕ) :
    ∀ s : ScanState, lo + fuel ≤ 9999 →
      (∀ v, D[pyIdx D.length (lo + fuel)]? = some v → t ≤ v) →
      (∃ v0, s.threshold = some v0 ∧ t ≤ v0) →
      ∃ s2, scanBody D t lo fuel s = some s2 ∧
        (∃ w, s2.threshold = some w ∧ t ≤ w) ∧ s2.overflow = s.overflow := by
  induction fuel with
  | zero =>
    intro s hk hprev hs
    exact ⟨s, by simp [scanBody], hs, rfl⟩
  | succ fuel ih =>
    intro s hk hprev hs
    have hidx : pyIdx D.length (lo + fuel) < D.length := pyIdx_lt hlen (by omega)
    have hv : D[pyIdx D.length (lo + fuel)]? = some D[pyIdx D.length (lo + fuel)] :=
      List.getElem?_eq_getElem hidx
    by_cases hvt : D[pyIdx D.length (lo + fuel)] < t
    · have hidx1 : pyIdx D.length (lo + fuel + 1) < D.length := pyIdx_lt hlen (by omega)
      have hv1 : D[pyIdx D.length (lo + fuel + 1)]? = some D[pyIdx D.length (lo + fuel + 1)] :=
        List.getElem?_eq_getElem hidx1
      have hw : t ≤ D[pyIdx D.length (lo + fuel + 1)] := hprev _ hv1
      refine ⟨⟨some D[pyIdx D.length (lo + fuel + 1)], true, s.overflow⟩, ?_, ⟨_, rfl, hw⟩, rfl⟩
      simp only [scanBody, hv, hv1, if_pos hvt]
    · have hge : t ≤ D[pyIdx D.length (lo + fuel)] := le_of_not_lt hvt
      obtain ⟨s2, h1, h2, h3⟩ := ih ⟨some D[pyIdx D.length (lo + fuel)], s.fin, s.overflow⟩
        (by omega) (fun v hv2 => by
          rw [hv] at hv2
          injection hv2 with h
          rw [← h]
          exact hge)
        ⟨_, rfl, hge⟩
      refine ⟨s2, ?_, h2, h3⟩
      simp only [scanBody, hv, if_neg hvt]
      exact h1

theorem getElem?_getLast {D : List ℚ} (hne : D ≠ []) (hlen : D.length ≤ 10000) :
    D[pyIdx D.length 9999]? = some (D.getLast hne) := by
  have h1 : 1 ≤ D.length := List.length_pos.mpr hne
  have h2 : D.length - 1 < D.length := by omega
  rw [pyIdx_9999 h1 hlen, List.getElem?_eq_getElem h2]
  rw [List.getLast_eq_getElem]

theorem scanBody_top_ge {D : List ℚ} {t : ℚ} {lo : ℕ} (hne : D ≠ [])
    (hlen : D.length ≤ 10000) (hlo : lo ≤ 9900) (s : ScanState)
    (hmax : t ≤ D.getLast hne) :
    ∃ s2, scanBody D t lo (10000 - lo) s = some s2 ∧
      ∃ w, s2.threshold = some w ∧ t ≤ w := by
  have h1 : 1 ≤ D.length := List.length_pos.mpr hne
  have hvg : D[pyIdx D.length 9999]? = some (D.getLast hne) := getElem?_getLast hne hlen
  have hkeq : lo + (9999 - lo) = 9999 := by omega
  obtain ⟨s2, hrun, hw, _⟩ := @scanBody_descent D t lo h1 (9999 - lo)
    ⟨some (D.getLast hne), s.fin, s.overflow⟩ (by omega)
    (fun v hv2 => by
      rw [hkeq, hvg] at hv2
      injection hv2 with h
      rw [← h]
      exact hmax)
    ⟨_, rfl, hmax⟩
  refine ⟨s2, ?_, hw⟩
  have hfuel : 10000 - lo = (9999 - lo) + 1 := by omega
  rw [hfuel]
  simp only [scanBody, hkeq, hvg, if_neg (not_lt.mpr hmax)]
  exact hrun

theorem scanBody_top_lt {D : List ℚ} {t : ℚ} {lo : ℕ}
    (hsort : List.Sorted (fun a b => a ≤ b) D) (hne : D ≠ [])
    (hlen : D.length ≤ 10000) (hlo : lo ≤ 9998) (s : ScanState)
    (hmax : D.getLast hne < t) :
    scanBody D t lo (10000 - lo) s = some ⟨some (D.getLast hne), true, true⟩ := by
  have h1 : 1 ≤ D.length := List.length_pos.mpr hne
  have hvg : D[pyIdx D.length 9999]? = some (D.getLast hne) := getElem?_getLast hne hlen
  have hnone : D[pyIdx D.length (9999 + 1)]? = none := by
    rw [show (9999 + 1 : ℕ) = 10000 from rfl, pyIdx_10000]
    exact List.getElem?_eq_none (le_refl _)
  have hidx2 : pyIdx D.length 9998 < D.length := pyIdx_lt h1 (by omega)
  have hv2 : D[pyIdx D.length 9998]? = some D[pyIdx D.length 9998] :=
    List.getElem?_eq_getElem hidx2
  have hv2lt : D[pyIdx D.length 9998] < t :=
    lt_of_le_of_lt (sorted_getElem_le_getLast hsort hne hidx2) hmax
  have hvg2 : D[pyIdx D.length (9998 + 1)]? = some (D.getLast hne) := hvg
  have hfuel : 10000 - lo = ((9998 - lo) + 1) + 1 := by omega
  have hk1 : lo + ((9998 - lo) + 1) = 9999 := by omega
  have hk2 : lo + (9998 - lo) = 9998 := by omega
  rw [hfuel]
  simp only [scanBody, hk1, hvg, if_pos hmax, hnone, hk2, hv2, if_pos hv2lt, hvg2]

/-- **C1 (amended).**  For every ascending-sorted nonempty valid-point
distribution of at most 10000 values, every `target_percent p` with
`1 ≤ p ≤ 100` and every `target_threshold t`, the percentile-descent
threshold search behaves as follows.  If some distribution value is at or
above `t` (equivalently, the maximum is), the search returns a threshold
value `≥ t`.  If no value is at or above `t`, the search does **not**
return the no-threshold sentinel: the back-off `IndexError` at the top
scan step sets `threshold = None` but does not break, so the scan resumes
and returns the distribution maximum (a value strictly below `t`). -/
theorem claim1_amended (D : List ℚ) (t p : ℚ) (s : ScanState)
    (hsort : List.Sorted (fun a b => a ≤ b) D) (hne : D ≠ [])
    (hlen : D.length ≤ 10000) (hp1 : 1 ≤ p) (hp2 : p ≤ 100) :
    (t ≤ D.getLast hne →
      ∃ s2, percentileSearch D t p s = some s2 ∧ ∃ w, s2.threshold = some w ∧ t ≤ w) ∧
    (D.getLast hne < t →
      percentileSearch D t p s = some ⟨some (D.getLast hne), true, true⟩) := by
  have hp0 : (0 : ℚ) ≤ p := le_trans zero_le_one hp1
  have htr : pyTrunc p = ⌊p⌋ := pyTrunc_of_nonneg hp0
  have h1z : (1 : ℤ) ≤ ⌊p⌋ := by
    rw [Int.le_floor]
    exact_mod_cast hp1
  have h2z : ⌊p⌋ ≤ 100 := by
    have h := Int.floor_le_floor hp2
    have h100 : ⌊(100 : ℚ)⌋ = 100 := by norm_num
    rw [h100] at h
    exact h
  have hlo : scanLo p ≤ 9900 := by
    rw [scanLo, htr]
    omega
  constructor
  · intro hmax
    exact scanBody_top_ge hne hlen hlo s hmax
  · intro hmax
    exact scanBody_top_lt hsort hne hlen (by omega) s hmax

/-- **C1 (counterexample).**  For the sorted distribution `[1, 2, 3]`,
`target_percent = 20`, `target_threshold = 10`, no distribution value is at
or above the target threshold, yet the percentile-descent search returns
the threshold value `3` (strictly below `10`) instead of the no-threshold
sentinel required by the claim: after the back-off `IndexError` at the top
scan step the loop keeps scanning and re-selects the maximum. -/
theorem claim1_counterexample :
    percentileSearch [1, 2, 3] 10 20 ⟨none, false, false⟩ = some ⟨some 3, true, true⟩ ∧
    ((3 : ℚ) < 10) ∧ ∀ x ∈ [(1 : ℚ), 2, 3], x < 10 := by decide

/-- **C1 (witness).**  The amended search guarantee instantiated at the
concrete sorted distribution `[1, 2, 3, 4]`, `target_threshold = 3`,
`target_percent = 25`. -/
theorem claim1_witness :
    (List.Sorted (fun a b => a ≤ b) [(1 : ℚ), 2, 3, 4] ∧ ((1 : ℚ) ≤ 25) ∧ ((25 : ℚ) ≤ 100)) ∧
    (((3 : ℚ) ≤ [(1 : ℚ), 2, 3, 4].getLast (by decide) →
      ∃ s2, percentileSearch [(1 : ℚ), 2, 3, 4] 3 25 ⟨none, false, false⟩ = some s2 ∧
        ∃ w, s2.threshold = some w ∧ (3 : ℚ) ≤ w) ∧
    ([(1 : ℚ), 2, 3, 4].getLast (by decide) < 3 →
      percentileSearch [(1 : ℚ), 2, 3, 4] 3 25 ⟨none, false, false⟩ =
        some ⟨some ([(1 : ℚ), 2, 3, 4].getLast (by decide)), true, true⟩)) :=
  ⟨⟨by decide, by decide, by decide⟩,
    claim1_amended [(1 : ℚ), 2, 3, 4] 3 25 ⟨none, false, false⟩
      (by decide) (by decide) (by decide) (by decide) (by decide)⟩

/-- **C3 (counterexample).**  For the distribution `[1,...,10]` with
`target_percent = 20` and `target_threshold = 5`, the first-round
percentile-descent search (initial state `threshold = None`, `fin = False`)
selects threshold value `9` (the value at index 8), not `8` as the claim
states. -/
theorem claim3_counterexample :
    percentileSearch [1, 2, 3, 4, 5, 6, 7, 8, 9, 10] 5 20 ⟨none, false, false⟩ =
      some ⟨some 9, false, false⟩ ∧ ((9 : ℚ) ≠ 8) := by decide

/-- **C3 (amended).**  For the distribution `[1,2,3,4,5,6,7,8,9,10]`
(sorted ascending) with `target_percent = 20` and `target_threshold = 5`,
the first-round percentile-descent search selects threshold value `9` — the
value stored at index 8, the shallowest cut whose value is still `≥ 5`
removing at most 20% of the points; the scan never hits a value below the
target, so it terminates with `fin = False` and no back-off. -/
theorem claim3_amended :
    percentileSearch [1, 2, 3, 4, 5, 6, 7, 8, 9, 10] 5 20 ⟨none, false, false⟩ =
      some ⟨some 9, false, false⟩ := by decide

/-- Validity flags (`points[i].valid`) and current per-point criterion
values of the sparse point cloud, index-aligned.  The values change when
the external engine re-optimises cameras. -/
structure Recon where
  valid : List Bool
  vals : List ℚ
deriving DecidableEq, Repr, Inhabited

/-- The chunk state `executeStep` mutates: the reconstruction plus the
`tiepoint_accuracy` field (line 1148). -/
structure Chunk where
  recon : Recon
  tiepoint_accuracy : ℚ
deriving DecidableEq, Repr, Inhabited

/-- A `Metashape.TiePoints.Filter` object after `f.init(chunk, criterion)`:
it snapshots the per-point criterion values (`f.values`, lines 1207-1209). -/
structure PFilter where
  vals : List ℚ
deriving DecidableEq, Repr, Inhabited

def filterInit (r : Recon) : PFilter := ⟨r.vals⟩

/-- Lines 1210-1217 and 1316-1323: build `list_values_valid` from
`f.values` and the live `points[i].valid` flags, then `sort()` ascending.
Python raises `IndexError` when the points list is shorter than
`f.values`. -/
def sampleValid (f : PFilter) (valid : List Bool) : Option (List ℚ) :=
  if f.vals.length ≤ valid.length then
    some (List.insertionSort (fun a b => a ≤ b)
      ((f.vals.zip valid).filterMap (fun vb => if vb.2 then some vb.1 else none)))
  else none

/-- Python `max(xs)` over a float list: `ValueError` on the empty list. -/
def pymax (l : List ℚ) : Option ℚ :=
  match l with
  | [] => none
  | x :: xs => some (xs.foldl (fun a b => if a < b then b else a) x)

/-- Modelled from the spec: the engine contract `mark_points_invalid(threshold)`
"removes/deactivates all points with value ≥ threshold for the active
criterion" (spec section 6) — the body of `f.selectPoints(threshold);
f.removePoints(threshold)` (lines 1281-1282) is external Metashape code.
Every point whose snapshot criterion value is at or above the threshold is
deactivated; the others keep their validity flag. -/
def removePoints (r : Recon) (f : PFilter) (th : ℚ) : Recon :=
  { r with valid := (r.valid.zip f.vals).map (fun bv => bv.1 && decide (bv.2 < th)) }

/-- Python truthiness of the `threshold` variable at line 1279
(`if threshold:`): `None` and `0.0` are falsy. -/
def truthy : Option ℚ → Bool
  | none => false
  | some v => decide (v ≠ 0)

def countValid (valid : List Bool) : ℕ := valid.countP id

inductive PyErr
  | indexError
  | valueError
  | nameError
deriving DecidableEq, Repr, Inhabited

/-- A Python exception escaping `executeStep`, with the chunk state at the
moment it is raised (mutations persist). -/
structure Crash where
  err : PyErr
  chunk : Chunk
deriving DecidableEq, Repr, Inhabited

/-- Loop-carried state of `executeStep`: the chunk, the `threshold` and
`fin` variables, `npoint_list`, and the current `f` object. -/
structure LoopSt where
  chunk : Chunk
  threshold : Option ℚ
  fin : Bool
  hist : List ℕ
  lastF : PFilter
deriving DecidableEq, Repr, Inhabited

/-- Per-iteration record assembled from the values one round of the
`executeStep` loop computes. -/
structure IterLog where
  chunkTop : Chunk
  distTop : List ℚ
  rmsTop : Option ℚ
  cutIndex : Option ℤ
  scanOverflow : Bool
  scanFin : Bool
  thresholdAtCheck : Option ℚ
  removalRan : Bool
  validAfterRemoval : Option (List Bool)
  chunkAfter : Chunk
  resampled : Option (List ℚ)
  npointsAppended : Option ℕ
  finEnd : Bool
deriving DecidableEq, Repr, Inhabited

/-- `int(len(list_values_valid) * ((100 - target_percent) / 100))`
(line 1274), written with the kernel-computable rational helpers;
`rmseCutIdx_spec` identifies it with the literal source expression. -/
def rmseCutIdx (len : ℕ) (p : ℚ) : ℤ := pyTrunc (qmul (len : ℚ) (qdiv (qsub 100 p) 100))

theorem rmseCutIdx_spec (len : ℕ) (p : ℚ) :
    rmseCutIdx len p = pyTrunc ((len : ℚ) * ((100 - p) / 100)) := by
  rw [rmseCutIdx, qmul_eq, qdiv_eq, qsub_eq]

/-- Lines 1299-1307 (inside `if threshold:`): when `fin == True`, a fresh
filter is created and `fin` is dropped again if `max(f.values)` (over all
points, valid or not) still exceeds the target; `max` of an empty value
list raises `ValueError`.  When `fin` is false the stale round-top filter
object stays current. -/
def finRecheck (t : ℚ) (blockRan fin1 : Bool) (f0 : PFilter) (r2 : Recon) (c2 : Chunk) :
    Except Crash (PFilter × Bool) :=
  if blockRan then
    if fin1 then
      match pymax (filterInit r2).vals with
      | none => Except.error ⟨PyErr.valueError, c2⟩
      | some m => Except.ok (filterInit r2, if t < m then false else fin1)
    else Except.ok (f0, fin1)
  else Except.ok (f0, fin1)

/-- Lines 1316-1323 (inside `if threshold:`): rebuild `list_values_valid`
from the current `f` object (fresh only when `fin` was true) and the live
validity flags. -/
def resampleStep (blockRan : Bool) (fcur : PFilter) (r2 : Recon) (c2 : Chunk) :
    Except Crash (Option (List ℚ)) :=
  if blockRan then
    match sampleValid fcur r2.valid with
    | none => Except.error ⟨PyErr.indexError, c2⟩
    | some lvv2 => Except.ok (some lvv2)
  else Except.ok none

/-- Lines 1281-1282 inside `if threshold:`: the engine-side removal applied
when the block runs (see `removePoints`); outside the block the
reconstruction is untouched. -/
def removedRecon (c : Chunk) (f0 : PFilter) : Option ℚ → Recon
  | some v => if truthy (some v) then removePoints c.recon f0 v else c.recon
  | none => c.recon

/-- Lines 1284-1297: the reconstruction after the optional removal and the
`optimizeCameras` call (both only when `if threshold:` is truthy). -/
def afterRecon (opt : Recon → Recon) (c : Chunk) (f0 : PFilter) (th : Option ℚ) : Recon :=
  if truthy th then opt (removedRecon c f0 th) else c.recon

/-- The chunk after the removal/optimisation block. -/
def afterChunk (opt : Recon → Recon) (c : Chunk) (f0 : PFilter) (th : Option ℚ) : Chunk :=
  { c with recon := afterRecon opt c f0 th }

/-- Lines 1325-1349: assemble the round outcome from the post-block state:
for the percentile variants the above-threshold count of the re-sampled
distribution is appended to `npoint_list` and overwrites `fin`
(1325-1334); the RMSE variant re-creates the filter and sets `fin` when
the recomputed RMS is at or below target (1338-1349); `if fin:` (1351)
breaks the loop. -/
def finishIter (isRMSE : Bool) (t : ℚ) (rmsF : Recon → ℚ) (s : LoopSt)
    (lvv : List ℚ) (th : Option ℚ) (fin1 ov : Bool)
    (rmsTop : Option ℚ) (cutIdx : Option ℤ) (r2 : Recon) (c2 : Chunk)
    (rmValid : Option (List Bool)) (fcur : PFilter) (fin2 : Bool)
    (res : Option (List ℚ)) : LoopSt × IterLog × Bool :=
  let np : Option ℕ := match res with
    | some lvv2 => if isRMSE then none else some (lvv2.countP (fun x => decide (t < x)))
    | none => none
  let hist2 := match np with
    | some n => s.hist ++ [n]
    | none => s.hist
  let fin3 := match np with
    | some n => decide (n ≤ 10)
    | none => fin2
  let tail : PFilter × Bool :=
    if isRMSE then (filterInit r2, if rmsF r2 ≤ t then true else fin3)
    else (fcur, fin3)
  (⟨c2, th, tail.2, hist2, tail.1⟩,
    ⟨s.chunk, lvv, rmsTop, cutIdx, ov, fin1, th, truthy th, rmValid, c2, res, np, tail.2⟩,
    tail.2)

/-- Lines 1279-1349: the part of one `executeStep` round after the
threshold search.  `if threshold:` guards removal (1281-1282) and camera
optimisation (1284-1297); inside the block run `finRecheck` (1299-1307)
and `resampleStep` (1316-1323); `finishIter` assembles the rest. -/
def afterSearch (isRMSE : Bool) (t : ℚ) (rmsF : Recon → ℚ) (opt : Recon → Recon)
    (s : LoopSt) (f0 : PFilter) (lvv : List ℚ) (th : Option ℚ) (fin1 : Bool)
    (ov : Bool) (rmsTop : Option ℚ) (cutIdx : Option ℤ) :
    Except Crash (LoopSt × IterLog × Bool) :=
  let c := s.chunk
  let r2 : Recon := afterRecon opt c f0 th
  let c2 : Chunk := afterChunk opt c f0 th
  match finRecheck t (truthy th) fin1 f0 r2 c2 with
  | Except.error e => Except.error e
  | Except.ok (fcur, fin2) =>
    match resampleStep (truthy th) fcur r2 c2 with
    | Except.error e => Except.error e
    | Except.ok res =>
      Except.ok (finishIter isRMSE t rmsF s lvv th fin1 ov rmsTop cutIdx r2 c2
        (if truthy th then some (removedRecon c f0 th).valid else none) fcur fin2 res)

/-- One iteration of the `for it in range(int(max_iter))` loop of
`executeStep` (lines 1203-1349), for criterion variant `isRMSE`
(`step == 'Reprojection Error (RMSE Minimization)'`).  The first-iteration
baseline block (1219-1233) only reads statistics; its only state-relevant
effect is the `ValueError` of `max(list_values_valid)` on an empty
distribution (line 1230).  `rmsF` is the engine-dependent `calcRMS`
(read-only) and `opt` the external `optimizeCameras` call. -/
def iterBody (isRMSE : Bool) (t p : ℚ) (rmsF : Recon → ℚ) (opt : Recon → Recon)
    (s : LoopSt) (it : ℕ) : Except Crash (LoopSt × IterLog × Bool) :=
  let c := s.chunk
  let f0 := filterInit c.recon
  match sampleValid f0 c.recon.valid with
  | none => Except.error ⟨PyErr.indexError, c⟩
  | some lvv =>
    if it = 0 ∧ lvv = [] then Except.error ⟨PyErr.valueError, c⟩
    else if isRMSE = false then
      match scanBody lvv t (scanLo p) (10000 - scanLo p) ⟨s.threshold, s.fin, false⟩ with
      | none => Except.error ⟨PyErr.indexError, c⟩
      | some sc =>
        afterSearch isRMSE t rmsF opt s f0 lvv sc.threshold sc.fin sc.overflow none none
    else
      let r := rmsF c.recon
      if t < r then
        let tgt := rmseCutIdx lvv.length p
        match pyGet lvv tgt with
        | none => Except.error ⟨PyErr.indexError, c⟩
        | some v =>
          afterSearch isRMSE t rmsF opt s f0 lvv (some v) s.fin false (some r) (some tgt)
      else
        afterSearch isRMSE t rmsF opt s f0 lvv s.threshold s.fin false (some r) none

/-- The iteration loop: runs `iterBody` for `it = start, start + 1, ...`
while fuel remains, stopping early when a round breaks (`if fin:`, line
1351).  Returns (broke, final loop state, per-iteration records). -/
def runLoop (isRMSE : Bool) (t p : ℚ) (rmsF : Recon → ℚ) (opt : Recon → Recon) :
    LoopSt → List IterLog → ℕ → ℕ → Except Crash (Bool × LoopSt × List IterLog)
  | s, tr, _, 0 => Except.ok (false, s, tr)
  | s, tr, it, rem + 1 =>
    match iterBody isRMSE t p rmsF opt s it with
    | Except.error e => Except.error e
    | Except.ok (s2, log, broke) =>
      if broke then Except.ok (true, s2, tr ++ [log])
      else runLoop isRMSE t p rmsF opt s2 (tr ++ [log]) (it + 1) rem

/-- `npoint_list[i] - npoint_list[i-1]` for `i = 1, ..., len - 1`
(lines 1357 and 1391). -/
def diffsOf (h : List ℕ) : List ℤ := (h.zip h.tail).map (fun ab => (ab.2 : ℤ) - (ab.1 : ℤ))

/-- `len([d for d in differences if d >= 0])` (lines 1358 and 1392). -/
def nReverseOf (h : List ℕ) : ℕ := (diffsOf h).countP (fun d => decide (0 ≤ d))

/-- `sum([d for d in differences if d >= 0])` (lines 1360 and 1394). -/
def sumPosOf (h : List ℕ) : ℤ := ((diffsOf h).filter (fun d => decide (0 ≤ d))).sum

/-- The reported outcome of one `executeStep` run. -/
structure RunResult where
  iterations : ℕ
  converged : Bool
  nPointsLeft : ℕ
  thresholdFinal : ℚ
  hist : List ℕ
  differences : List ℤ
  nReverse : ℕ
  sumPosDiff : ℤ
  trace : List IterLog
  finalChunk : Chunk
deriving DecidableEq, Repr, Inhabited

/-- Lines 1351-1376 (the `if fin:` break branch) and 1379-1408 (the
budget-exhausted branch `if it == (max_iter-1) and fin == False:`):
assemble the reported run statistics.  A run of zero rounds leaves `it`
unbound (`NameError`); a fractional `max_iter` that exhausts the loop
fails the `it == max_iter - 1` comparison and `updateTreeEntries` then
reads unbound report variables (`NameError`).  `updateTreeEntries` itself
only writes UI widgets and is otherwise omitted. -/
def finishRun (maxIter : ℚ) (broke : Bool) (s : LoopSt) (tr : List IterLog) :
    Except Crash RunResult :=
  if broke then
    match pymax s.lastF.vals with
    | none => Except.error ⟨PyErr.valueError, s.chunk⟩
    | some thF =>
      Except.ok ⟨tr.length, true, countValid s.chunk.recon.valid, thF, s.hist,
        diffsOf s.hist, nReverseOf s.hist, sumPosOf s.hist, tr, s.chunk⟩
  else
    if tr.length = 0 then Except.error ⟨PyErr.nameError, s.chunk⟩
    else if qsub (tr.length : ℚ) 1 = qsub maxIter 1 then
      match pymax (filterInit s.chunk.recon).vals with
      | none => Except.error ⟨PyErr.valueError, s.chunk⟩
      | some thF =>
        Except.ok ⟨tr.length, false, countValid s.chunk.recon.valid, thF, s.hist,
          diffsOf s.hist, nReverseOf s.hist, sumPosOf s.hist, tr, s.chunk⟩
    else Except.error ⟨PyErr.nameError, s.chunk⟩

/-- `executeStep` (lines 1136-1425) for one criterion variant.
`tie_acc` is `float(self.tiepoint_ledits[step].text())` (line 1148); the
saved `initial_tiepoint_accuracy` (line 1146) is never read again.
`maxIter` is the raw float argument; the loop runs `int(max_iter)` rounds.
The camera fit flags only parameterise the engine call and are absorbed
into `opt`; `print` calls and UI writes are omitted. -/
def executeStep (isRMSE : Bool) (t p tie_acc maxIter : ℚ)
    (rmsF : Recon → ℚ) (opt : Recon → Recon) (c0 : Chunk) : Except Crash RunResult :=
  let c1 : Chunk := { c0 with tiepoint_accuracy := tie_acc }
  let s0 : LoopSt := ⟨c1, none, false, [], ⟨[]⟩⟩
  match runLoop isRMSE t p rmsF opt s0 [] 0 (pyTrunc maxIter).toNat with
  | Except.error e => Except.error e
  | Except.ok (broke, s, tr) => finishRun maxIter broke s tr

/-- `runButtonClicked` (lines 1121-1133): the three text fields are
converted with `float(...)` in argument order (`target_percent`,
`target_threshold`, `max_iter`) while building the `executeStep` call; a
non-numeric field raises `ValueError` before `executeStep` runs, with the
chunk untouched.  The parsed values are modelled as `Option ℚ`. -/
def runButtonClicked (pp tt mi : Option ℚ) (isRMSE : Bool) (tie_acc : ℚ)
    (rmsF : Recon → ℚ) (opt : Recon → Recon) (c : Chunk) : Except Crash RunResult :=
  match pp with
  | none => Except.error ⟨PyErr.valueError, c⟩
  | some p =>
    match tt with
    | none => Except.error ⟨PyErr.valueError, c⟩
    | some t =>
      match mi with
      | none => Except.error ⟨PyErr.valueError, c⟩
      | some m => executeStep isRMSE t p tie_acc m rmsF opt c

/-- The chunk state carried out of one round, crash or not. -/
def stepChunk : Except Crash (LoopSt × IterLog × Bool) → Chunk
  | Except.error e => e.chunk
  | Except.ok (s2, _, _) => s2.chunk

/-- The chunk state carried out of the iteration loop, crash or not. -/
def loopChunk : Except Crash (Bool × LoopSt × List IterLog) → Chunk
  | Except.error e => e.chunk
  | Except.ok (_, s2, _) => s2.chunk

/-- The chunk state carried out of a whole `executeStep` call, crash or
not (Python mutations persist when an exception escapes). -/
def runChunk : Except Crash RunResult → Chunk
  | Except.error e => e.chunk
  | Except.ok r => r.finalChunk

theorem finRecheck_error {t : ℚ} {blockRan fin1 : Bool} {f0 : PFilter} {r2 : Recon}
    {c2 : Chunk} {e : Crash} (h : finRecheck t blockRan fin1 f0 r2 c2 = Except.error e) :
    e.chunk = c2 := by
  unfold finRecheck at h
  split at h
  · split at h
    · split at h
      · injection h with h1
        rw [← h1]
      · exact Except.noConfusion h
    · exact Except.noConfusion h
  · exact Except.noConfusion h

theorem resampleStep_error {blockRan : Bool} {fcur : PFilter} {r2 : Recon}
    {c2 : Chunk} {e : Crash} (h : resampleStep blockRan fcur r2 c2 = Except.error e) :
    e.chunk = c2 := by
  unfold resampleStep at h
  split at h
  · split at h
    · injection h with h1
      rw [← h1]
    · exact Except.noConfusion h
  · exact Except.noConfusion h

theorem afterSearch_chunk (isRMSE : Bool) (t : ℚ) (rmsF : Recon → ℚ) (opt : Recon → Recon)
    (s : LoopSt) (f0 : PFilter) (lvv : List ℚ) (th : Option ℚ) (fin1 : Bool)
    (ov : Bool) (rmsTop : Option ℚ) (cutIdx : Option ℤ) :
    (stepChunk (afterSearch isRMSE t rmsF opt s f0 lvv th fin1 ov rmsTop cutIdx)).tiepoint_accuracy
      = s.chunk.tiepoint_accuracy := by
  simp only [afterSearch]
  split
  · rename_i e heq
    rw [stepChunk, finRecheck_error heq]
    rfl
  · rename_i fp heq
    split
    · rename_i e heq2
      rw [stepChunk, resampleStep_error heq2]
      rfl
    · rfl

theorem afterSearch_error_inv {isRMSE : Bool} {t : ℚ} {rmsF : Recon → ℚ}
    {opt : Recon → Recon} {s : LoopSt} {f0 : PFilter} {lvv : List ℚ} {th : Option ℚ}
    {fin1 ov : Bool} {rmsTop : Option ℚ} {cutIdx : Option ℤ} {e : Crash}
    (h : afterSearch isRMSE t rmsF opt s f0 lvv th fin1 ov rmsTop cutIdx = Except.error e) :
    e.chunk = afterChunk opt s.chunk f0 th := by
  simp only [afterSearch] at h
  split at h
  · rename_i e2 heq
    injection h with h1
    rw [← h1]
    exact finRecheck_error heq
  · split at h
    · rename_i e2 heq2
      injection h with h1
      rw [← h1]
      exact resampleStep_error heq2
    · exact Except.noConfusion h

theorem afterSearch_ok_inv {isRMSE : Bool} {t : ℚ} {rmsF : Recon → ℚ}
    {opt : Recon → Recon} {s : LoopSt} {f0 : PFilter} {lvv : List ℚ} {th : Option ℚ}
    {fin1 ov : Bool} {rmsTop : Option ℚ} {cutIdx : Option ℤ} {out : LoopSt × IterLog × Bool}
    (h : afterSearch isRMSE t rmsF opt s f0 lvv th fin1 ov rmsTop cutIdx = Except.ok out) :
    ∃ fcur fin2 res,
      finRecheck t (truthy th) fin1 f0 (afterRecon opt s.chunk f0 th)
          (afterChunk opt s.chunk f0 th) = Except.ok (fcur, fin2) ∧
      resampleStep (truthy th) fcur (afterRecon opt s.chunk f0 th)
          (afterChunk opt s.chunk f0 th) = Except.ok res ∧
      out = finishIter isRMSE t rmsF s lvv th fin1 ov rmsTop cutIdx
        (afterRecon opt s.chunk f0 th) (afterChunk opt s.chunk f0 th)
        (if truthy th then some (removedRecon s.chunk f0 th).valid else none) fcur fin2 res := by
  simp only [afterSearch] at h
  split at h
  · exact Except.noConfusion h
  · rename_i fcur fin2 heq
    split at h
    · exact Except.noConfusion h
    · rename_i res heq2
      injection h with h1
      exact ⟨fcur, fin2, res, heq, heq2, h1.symm⟩

theorem iterBody_chunk (isRMSE : Bool) (t p : ℚ) (rmsF : Recon → ℚ) (opt : Recon → Recon)
    (s : LoopSt) (it : ℕ) :
    (stepChunk (iterBody isRMSE t p rmsF opt s it)).tiepoint_accuracy
      = s.chunk.tiepoint_accuracy := by
  simp only [iterBody]
  split
  · rfl
  · split
    · rfl
    · split
      · split
        · rfl
        · exact afterSearch_chunk ..
      · split
        · split
          · rfl
          · exact afterSearch_chunk ..
        · exact afterSearch_chunk ..

theorem runLoop_chunk (isRMSE : Bool) (t p : ℚ) (rmsF : Recon → ℚ) (opt : Recon → Recon)
    (rem : ℕ) : ∀ (s : LoopSt) (tr : List IterLog) (it : ℕ),
    (loopChunk (runLoop isRMSE t p rmsF opt s tr it rem)).tiepoint_accuracy
      = s.chunk.tiepoint_accuracy := by
  induction rem with
  | zero => intro s tr it; rfl
  | succ rem ih =>
    intro s tr it
    simp only [runLoop]
    split
    · rename_i e heq
      have h2 := iterBody_chunk isRMSE t p rmsF opt s it
      rw [heq] at h2
      exact h2
    · rename_i p2 heq
      have h2 := iterBody_chunk isRMSE t p rmsF opt s it
      rw [heq] at h2
      split
      · exact h2
      · rw [ih]
        exact h2

theorem finishRun_chunk (maxIter : ℚ) (broke : Bool) (s : LoopSt) (tr : List IterLog) :
    (runChunk (finishRun maxIter broke s tr)).tiepoint_accuracy
      = s.chunk.tiepoint_accuracy := by
  unfold finishRun
  split
  · split <;> rfl
  · split
    · rfl
    · split
      · split <;> rfl
      · rfl

/-- **C10.**  Executing a step permanently overwrites the chunk's tie point
accuracy with the value configured for that step (line 1148) before the
first iteration and never restores it: the saved
`initial_tiepoint_accuracy` (line 1146) is dead.  Whatever the outcome —
converged, budget-exhausted, or an escaping exception — the final chunk
state carries the configured accuracy, not the pre-run value. -/
theorem claim10_tiepoint_accuracy_overwritten (isRMSE : Bool) (t p tie_acc maxIter : ℚ)
    (rmsF : Recon → ℚ) (opt : Recon → Recon) (c0 : Chunk) :
    (runChunk (executeStep isRMSE t p tie_acc maxIter rmsF opt c0)).tiepoint_accuracy
      = tie_acc := by
  simp only [executeStep]
  split
  · rename_i e heq
    have h2 := runLoop_chunk isRMSE t p rmsF opt (pyTrunc maxIter).toNat
      ⟨{ c0 with tiepoint_accuracy := tie_acc }, none, false, [], ⟨[]⟩⟩ [] 0
    rw [heq] at h2
    exact h2
  · rename_i p2 heq
    have h2 := runLoop_chunk isRMSE t p rmsF opt (pyTrunc maxIter).toNat
      ⟨{ c0 with tiepoint_accuracy := tie_acc }, none, false, [], ⟨[]⟩⟩ [] 0
    rw [heq] at h2
    rw [finishRun_chunk]
    exact h2

theorem diffsOf_length (h : List ℕ) : (diffsOf h).length = h.length - 1 := by
  cases h with
  | nil => rfl
  | cons a tl =>
    simp only [diffsOf, List.length_map, List.length_zip, List.tail_cons, List.length_cons]
    omega

theorem diffsOf_singleton {h : List ℕ} (hl : h.length = 1) : diffsOf h = [] := by
  cases h with
  | nil => rfl
  | cons a tl =>
    cases tl with
    | nil => rfl
    | cons b tl2 => simp at hl

theorem finishIter_hist {isRMSE : Bool} {t : ℚ} {rmsF : Recon → ℚ} {s : LoopSt}
    {lvv : List ℚ} {th : Option ℚ} {fin1 ov : Bool} {rmsTop : Option ℚ}
    {cutIdx : Option ℤ} {r2 : Recon} {c2 : Chunk} {rmValid : Option (List Bool)}
    {fcur : PFilter} {fin2 : Bool} {res : Option (List ℚ)} :
    (finishIter isRMSE t rmsF s lvv th fin1 ov rmsTop cutIdx r2 c2 rmValid fcur fin2 res).1.hist
        = s.hist ∨
      ∃ n, (finishIter isRMSE t rmsF s lvv th fin1 ov rmsTop cutIdx r2 c2 rmValid
        fcur fin2 res).1.hist = s.hist ++ [n] := by
  unfold finishIter
  dsimp only
  repeat' split
  all_goals first
    | (left; rfl)
    | (right; exact ⟨_, rfl⟩)

theorem afterSearch_hist_ok {isRMSE : Bool} {t : ℚ} {rmsF : Recon → ℚ} {opt : Recon → Recon}
    {s : LoopSt} {f0 : PFilter} {lvv : List ℚ} {th : Option ℚ} {fin1 ov : Bool}
    {rmsTop : Option ℚ} {cutIdx : Option ℤ} {out : LoopSt × IterLog × Bool}
    (h : afterSearch isRMSE t rmsF opt s f0 lvv th fin1 ov rmsTop cutIdx = Except.ok out) :
    out.1.hist = s.hist ∨ ∃ n, out.1.hist = s.hist ++ [n] := by
  obtain ⟨fcur, fin2, res, _, _, hout⟩ := afterSearch_ok_inv h
  rw [hout]
  exact finishIter_hist

theorem iterBody_ok_inv {isRMSE : Bool} {t p : ℚ} {rmsF : Recon → ℚ} {opt : Recon → Recon}
    {s : LoopSt} {it : ℕ} {out : LoopSt × IterLog × Bool}
    (h : iterBody isRMSE t p rmsF opt s it = Except.ok out) :
    ∃ lvv, sampleValid (filterInit s.chunk.recon) s.chunk.recon.valid = some lvv ∧
      ¬(it = 0 ∧ lvv = []) ∧
      ((isRMSE = false ∧
          ∃ sc, scanBody lvv t (scanLo p) (10000 - scanLo p) ⟨s.threshold, s.fin, false⟩ = some sc ∧
            afterSearch isRMSE t rmsF opt s (filterInit s.chunk.recon) lvv sc.threshold sc.fin
              sc.overflow none none = Except.ok out) ∨
        (isRMSE = true ∧ t < rmsF s.chunk.recon ∧
          ∃ v, pyGet lvv (rmseCutIdx lvv.length p) = some v ∧
            afterSearch isRMSE t rmsF opt s (filterInit s.chunk.recon) lvv (some v) s.fin false
              (some (rmsF s.chunk.recon)) (some (rmseCutIdx lvv.length p)) = Except.ok out) ∨
        (isRMSE = true ∧ rmsF s.chunk.recon ≤ t ∧
          afterSearch isRMSE t rmsF opt s (filterInit s.chunk.recon) lvv s.threshold s.fin false
            (some (rmsF s.chunk.recon)) none = Except.ok out)) := by
  simp only [iterBody] at h
  cases hsmp : sampleValid (filterInit s.chunk.recon) s.chunk.recon.valid with
  | none => exact absurd h (by simp [hsmp])
  | some lvv =>
    simp only [hsmp] at h
    by_cases hit : it = 0 ∧ lvv = []
    · rw [if_pos hit] at h
      exact Except.noConfusion h
    · rw [if_neg hit] at h
      by_cases hrm : isRMSE = false
      · rw [if_pos hrm] at h
        cases hscan : scanBody lvv t (scanLo p) (10000 - scanLo p) ⟨s.threshold, s.fin, false⟩ with
        | none => exact absurd h (by simp [hscan])
        | some sc =>
          simp only [hscan] at h
          exact ⟨lvv, rfl, hit, Or.inl ⟨hrm, sc, hscan, h⟩⟩
      · rw [if_neg hrm] at h
        have hrm2 : isRMSE = true := by simpa using hrm
        by_cases hlt : t < rmsF s.chunk.recon
        · rw [if_pos hlt] at h
          cases hg : pyGet lvv (rmseCutIdx lvv.length p) with
          | none => exact absurd h (by simp [hg])
          | some v =>
            simp only [hg] at h
            exact ⟨lvv, rfl, hit, Or.inr (Or.inl ⟨hrm2, hlt, v, hg, h⟩)⟩
        · rw [if_neg hlt] at h
          exact ⟨lvv, rfl, hit, Or.inr (Or.inr ⟨hrm2, le_of_not_lt hlt, h⟩)⟩

theorem iterBody_hist_ok {isRMSE : Bool} {t p : ℚ} {rmsF : Recon → ℚ} {opt : Recon → Recon}
    {s : LoopSt} {it : ℕ} {out : LoopSt × IterLog × Bool}
    (h : iterBody isRMSE t p rmsF opt s it = Except.ok out) :
    out.1.hist = s.hist ∨ ∃ n, out.1.hist = s.hist ++ [n] := by
  obtain ⟨lvv, _, _, hcase⟩ := iterBody_ok_inv h
  rcases hcase with ⟨_, sc, _, ha⟩ | ⟨_, _, v, _, ha⟩ | ⟨_, _, ha⟩ <;>
    exact afterSearch_hist_ok ha

theorem runLoop_hist (isRMSE : Bool) (t p : ℚ) (rmsF : Recon → ℚ) (opt : Recon → Recon)
    (rem : ℕ) : ∀ (s : LoopSt) (tr : List IterLog) (it : ℕ)
      (out : Bool × LoopSt × List IterLog),
    runLoop isRMSE t p rmsF opt s tr it rem = Except.ok out →
    out.2.1.hist.length + tr.length ≤ s.hist.length + out.2.2.length ∧
    tr.length ≤ out.2.2.length ∧
    (out.1 = true → tr.length < out.2.2.length) := by
  induction rem with
  | zero =>
    intro s tr it out h
    simp only [runLoop] at h
    injection h with h1
    subst h1
    refine ⟨?_, ?_, ?_⟩ <;> dsimp only
    · omega
    · omega
    · intro hb
      exact absurd hb (by simp)
  | succ rem ih =>
    intro s tr it out h
    simp only [runLoop] at h
    split at h
    · exact Except.noConfusion h
    · rename_i s2 log broke heq
      have hgrow : s2.hist = s.hist ∨ ∃ n, s2.hist = s.hist ++ [n] :=
        iterBody_hist_ok heq
      have hlen : s2.hist.length ≤ s.hist.length + 1 := by
        rcases hgrow with h1 | ⟨n, h1⟩ <;> rw [h1] <;> simp
      split at h
      · injection h with h1
        subst h1
        refine ⟨?_, ?_, ?_⟩ <;> dsimp only
        · simp only [List.length_append, List.length_cons, List.length_nil]
          omega
        · simp only [List.length_append, List.length_cons, List.length_nil]
          omega
        · intro _
          simp only [List.length_append, List.length_cons, List.length_nil]
          omega
      · have := ih s2 (tr ++ [log]) (it + 1) out h
        rcases this with ⟨ha, hb, hc⟩
        simp only [List.length_append, List.length_cons, List.length_nil] at ha hb hc
        refine ⟨by omega, by omega, ?_⟩
        intro hbroke
        have := hc hbroke
        omega

theorem finishRun_ok {maxIter : ℚ} {broke : Bool} {s : LoopSt} {tr : List IterLog}
    {res : RunResult} (h : finishRun maxIter broke s tr = Except.ok res) :
    res.iterations = tr.length ∧ res.hist = s.hist ∧
    res.differences = diffsOf s.hist ∧ res.nReverse = nReverseOf s.hist ∧
    res.sumPosDiff = sumPosOf s.hist ∧ res.trace = tr ∧ res.converged = broke ∧
    res.finalChunk = s.chunk ∧ (broke = false → 1 ≤ tr.length) := by
  unfold finishRun at h
  split at h
  · rename_i hbroke
    split at h
    · exact Except.noConfusion h
    · injection h with h1
      subst h1
      exact ⟨rfl, rfl, rfl, rfl, rfl, rfl, hbroke.symm, rfl, fun hb => absurd (hbroke ▸ hb) (by simp)⟩
  · rename_i hbroke
    split at h
    · exact Except.noConfusion h
    · rename_i hlen
      split at h
      · split at h
        · exact Except.noConfusion h
        · injection h with h1
          subst h1
          refine ⟨rfl, rfl, rfl, rfl, rfl, rfl, ?_, rfl, fun _ => by omega⟩
          simp at hbroke
          exact hbroke.symm
      · exact Except.noConfusion h

/-- **C7.**  For every completed run, the reported reversal count is the
number of entries of the successive-difference list of the per-iteration
history that are `≥ 0`, and is at most `iterations_executed - 1`; the
reported cumulative reversal magnitude equals the sum of those
non-negative differences; for a single-element history both are `0`. -/
theorem claim7_reversal_diagnostics (isRMSE : Bool) (t p tie_acc maxIter : ℚ)
    (rmsF : Recon → ℚ) (opt : Recon → Recon) (c0 : Chunk) (res : RunResult)
    (h : executeStep isRMSE t p tie_acc maxIter rmsF opt c0 = Except.ok res) :
    res.differences = diffsOf res.hist ∧
    res.nReverse = res.differences.countP (fun d => decide (0 ≤ d)) ∧
    res.nReverse ≤ res.iterations - 1 ∧
    res.sumPosDiff = (res.differences.filter (fun d => decide (0 ≤ d))).sum ∧
    (res.hist.length = 1 → res.nReverse = 0 ∧ res.sumPosDiff = 0) := by
  simp only [executeStep] at h
  split at h
  · exact Except.noConfusion h
  · rename_i broke s1 tr heq
    have hloop := runLoop_hist isRMSE t p rmsF opt (pyTrunc maxIter).toNat
      ⟨{ c0 with tiepoint_accuracy := tie_acc }, none, false, [], ⟨[]⟩⟩ [] 0 (broke, s1, tr) heq
    obtain ⟨hla, hlb, hlc⟩ := hloop
    dsimp only at hla hlb hlc
    obtain ⟨hit, hh, hd, hnr, hsp, htr, hcv, hfc, hbk⟩ := finishRun_ok h
    have hhist : res.hist.length ≤ res.iterations := by
      rw [hit, hh]
      simp only [List.length_nil] at hla
      omega
    have hdl : (diffsOf res.hist).length = res.hist.length - 1 := diffsOf_length res.hist
    have hcount : res.nReverse ≤ (diffsOf res.hist).length := by
      rw [hnr, nReverseOf, ← hh]
      exact List.countP_le_length _
    refine ⟨by rw [hd, hh], by rw [hnr, hd, nReverseOf], by omega,
      by rw [hsp, hd, sumPosOf], ?_⟩
    intro h1
    have hnil : diffsOf res.hist = [] := diffsOf_singleton h1
    constructor
    · rw [hnr, nReverseOf, hh] at *
      rw [hh] at hnil
      rw [hnil]
      rfl
    · rw [hsp, sumPosOf, hh] at *
      rw [hh] at hnil
      rw [hnil]
      rfl

def c7run : Except Crash RunResult :=
  executeStep false 10 20 1 1 (fun _ => 1) id ⟨⟨[true, true, true], [1, 2, 3]⟩, 0⟩

def c7res : RunResult := c7run.toOption.getD default

/-- **C7 (witness).**  The reversal-diagnostics guarantee evaluated on a
concrete one-iteration percentile run that converges immediately. -/
theorem claim7_witness :
    c7run = Except.ok c7res ∧
    (c7res.differences = diffsOf c7res.hist ∧
      c7res.nReverse = c7res.differences.countP (fun d => decide (0 ≤ d)) ∧
      c7res.nReverse ≤ c7res.iterations - 1 ∧
      c7res.sumPosDiff = (c7res.differences.filter (fun d => decide (0 ≤ d))).sum ∧
      (c7res.hist.length = 1 → c7res.nReverse = 0 ∧ c7res.sumPosDiff = 0)) :=
  ⟨by rfl, claim7_reversal_diagnostics false 10 20 1 1 (fun _ => 1) id
    ⟨⟨[true, true, true], [1, 2, 3]⟩, 0⟩ c7res (by rfl)⟩

theorem finishIter_log {isRMSE : Bool} {t : ℚ} {rmsF : Recon → ℚ} {s : LoopSt}
    {lvv : List ℚ} {th : Option ℚ} {fin1 ov : Bool} {rmsTop : Option ℚ}
    {cutIdx : Option ℤ} {r2 : Recon} {c2 : Chunk} {rmValid : Option (List Bool)}
    {fcur : PFilter} {fin2 : Bool} {res : Option (List ℚ)} :
    (finishIter isRMSE t rmsF s lvv th fin1 ov rmsTop cutIdx r2 c2 rmValid fcur fin2 res).2.1.rmsTop = rmsTop ∧
    (finishIter isRMSE t rmsF s lvv th fin1 ov rmsTop cutIdx r2 c2 rmValid fcur fin2 res).2.1.cutIndex = cutIdx ∧
    (finishIter isRMSE t rmsF s lvv th fin1 ov rmsTop cutIdx r2 c2 rmValid fcur fin2 res).2.1.distTop = lvv ∧
    (finishIter isRMSE t rmsF s lvv th fin1 ov rmsTop cutIdx r2 c2 rmValid fcur fin2 res).2.1.removalRan = truthy th ∧
    (finishIter isRMSE t rmsF s lvv th fin1 ov rmsTop cutIdx r2 c2 rmValid fcur fin2 res).2.1.finEnd =
      (finishIter isRMSE t rmsF s lvv th fin1 ov rmsTop cutIdx r2 c2 rmValid fcur fin2 res).2.2 ∧
    (finishIter isRMSE t rmsF s lvv th fin1 ov rmsTop cutIdx r2 c2 rmValid fcur fin2 res).1.fin =
      (finishIter isRMSE t rmsF s lvv th fin1 ov rmsTop cutIdx r2 c2 rmValid fcur fin2 res).2.2 ∧
    (finishIter isRMSE t rmsF s lvv th fin1 ov rmsTop cutIdx r2 c2 rmValid fcur fin2 res).1.threshold = th ∧
    (finishIter isRMSE t rmsF s lvv th fin1 ov rmsTop cutIdx r2 c2 rmValid fcur fin2 res).1.chunk = c2 ∧
    (finishIter isRMSE t rmsF s lvv th fin1 ov rmsTop cutIdx r2 c2 rmValid fcur fin2 res).2.1.chunkTop = s.chunk ∧
    (finishIter isRMSE t rmsF s lvv th fin1 ov rmsTop cutIdx r2 c2 rmValid fcur fin2 res).2.1.scanOverflow = ov ∧
    (finishIter isRMSE t rmsF s lvv th fin1 ov rmsTop cutIdx r2 c2 rmValid fcur fin2 res).2.1.scanFin = fin1 ∧
    (finishIter isRMSE t rmsF s lvv th fin1 ov rmsTop cutIdx r2 c2 rmValid fcur fin2 res).2.1.thresholdAtCheck = th ∧
    (finishIter isRMSE t rmsF s lvv th fin1 ov rmsTop cutIdx r2 c2 rmValid fcur fin2 res).2.1.resampled = res ∧
    (finishIter isRMSE t rmsF s lvv th fin1 ov rmsTop cutIdx r2 c2 rmValid fcur fin2 res).2.1.chunkAfter = c2 ∧
    (finishIter isRMSE t rmsF s lvv th fin1 ov rmsTop cutIdx r2 c2 rmValid fcur fin2 res).2.1.validAfterRemoval = rmValid :=
  ⟨rfl, rfl, rfl, rfl, rfl, rfl, rfl, rfl, rfl, rfl, rfl, rfl, rfl, rfl, rfl⟩

theorem finishIter_rmse_break {t : ℚ} {rmsF : Recon → ℚ} {s : LoopSt}
    {lvv : List ℚ} {th : Option ℚ} {fin1 ov : Bool} {rmsTop : Option ℚ}
    {cutIdx : Option ℤ} {r2 : Recon} {c2 : Chunk} {rmValid : Option (List Bool)}
    {fcur : PFilter} {fin2 : Bool} {res : Option (List ℚ)} :
    (finishIter true t rmsF s lvv th fin1 ov rmsTop cutIdx r2 c2 rmValid fcur fin2 res).2.2 =
      (if rmsF r2 ≤ t then true else fin2) := by
  unfold finishIter
  cases res <;> rfl

theorem afterRecon_not_truthy {opt : Recon → Recon} {c : Chunk} {f0 : PFilter}
    {th : Option ℚ} (h : truthy th = false) : afterRecon opt c f0 th = c.recon := by
  unfold afterRecon
  rw [h]
  rfl

theorem iterBody_rmse_round {t p : ℚ} {rmsF : Recon → ℚ} {opt : Recon → Recon}
    {s : LoopSt} {it : ℕ} {out : LoopSt × IterLog × Bool}
    (hinv : truthy s.threshold = true → t < rmsF s.chunk.recon)
    (h : iterBody true t p rmsF opt s it = Except.ok out) :
    out.2.1.rmsTop = some (rmsF s.chunk.recon) ∧
    (t < rmsF s.chunk.recon →
      out.2.1.cutIndex = some (rmseCutIdx out.2.1.distTop.length p)) ∧
    (rmsF s.chunk.recon ≤ t →
      out.2.1.removalRan = false ∧ out.2.1.finEnd = true ∧ out.2.2 = true) ∧
    (out.2.2 = false →
      out.1.fin = out.2.2 ∧ (truthy out.1.threshold = true → t < rmsF out.1.chunk.recon)) := by
  obtain ⟨lvv, hsmp, hit, hcase⟩ := iterBody_ok_inv h
  rcases hcase with ⟨hrm, _⟩ | ⟨_, hlt, v, hg, ha⟩ | ⟨_, hle, ha⟩
  · exact Bool.noConfusion hrm
  · obtain ⟨fcur, fin2, res, hfr, hrs, hout⟩ := afterSearch_ok_inv ha
    subst hout
    obtain ⟨l1, l2, l3, l4, l5, l6, l7, l8, _⟩ := finishIter_log
    refine ⟨by rw [l1], fun _ => by rw [l2, l3], fun hc => absurd hlt (not_lt.mpr hc), ?_⟩
    intro hb
    refine ⟨by rw [l6, hb], fun _ => ?_⟩
    rw [finishIter_rmse_break] at hb
    rw [l8]
    by_cases hle2 : rmsF (afterRecon opt s.chunk (filterInit s.chunk.recon) (some v)) ≤ t
    · rw [if_pos hle2] at hb
      exact Bool.noConfusion hb
    · exact not_le.mp hle2
  · obtain ⟨fcur, fin2, res, hfr, hrs, hout⟩ := afterSearch_ok_inv ha
    subst hout
    obtain ⟨l1, l2, l3, l4, l5, l6, l7, l8, _⟩ := finishIter_log
    have hnt : truthy s.threshold = false := by
      cases htt : truthy s.threshold with
      | false => rfl
      | true => exact absurd (hinv htt) (not_lt.mpr hle)
    have hr2 : afterRecon opt s.chunk (filterInit s.chunk.recon) s.threshold = s.chunk.recon :=
      afterRecon_not_truthy hnt
    have hbrk : (finishIter true t rmsF s lvv s.threshold s.fin false
        (some (rmsF s.chunk.recon)) none
        (afterRecon opt s.chunk (filterInit s.chunk.recon) s.threshold)
        (afterChunk opt s.chunk (filterInit s.chunk.recon) s.threshold)
        (if truthy s.threshold = true then
          some (removedRecon s.chunk (filterInit s.chunk.recon) s.threshold).valid
        else none) fcur fin2 res).2.2 = true := by
      rw [finishIter_rmse_break, hr2, if_pos hle]
    refine ⟨by rw [l1], fun hc => absurd hc (not_lt.mpr hle), fun _ => ?_, ?_⟩
    · exact ⟨by rw [l4, hnt], by rw [l5, hbrk], hbrk⟩
    · intro hb
      rw [hbrk] at hb
      exact Bool.noConfusion hb

theorem rmseCutIdx_floor {p : ℚ} (len : ℕ) (hp : p ≤ 100) :
    rmseCutIdx len p = ⌊(len : ℚ) * ((100 - p) / 100)⌋ := by
  rw [rmseCutIdx_spec]
  apply pyTrunc_of_nonneg
  have h1 : (0 : ℚ) ≤ 100 - p := by linarith
  positivity

theorem runLoop_rmse_P (t p : ℚ) (rmsF : Recon → ℚ) (opt : Recon → Recon) (rem : ℕ) :
    ∀ (s : LoopSt) (tr : List IterLog) (it : ℕ) (out : Bool × LoopSt × List IterLog),
    (truthy s.threshold = true → t < rmsF s.chunk.recon) →
    (∀ log ∈ tr, ∀ r, log.rmsTop = some r →
      (t < r → log.cutIndex = some (rmseCutIdx log.distTop.length p)) ∧
      (r ≤ t → log.removalRan = false ∧ log.finEnd = true)) →
    runLoop true t p rmsF opt s tr it rem = Except.ok out →
    ∀ log ∈ out.2.2, ∀ r, log.rmsTop = some r →
      (t < r → log.cutIndex = some (rmseCutIdx log.distTop.length p)) ∧
      (r ≤ t → log.removalRan = false ∧ log.finEnd = true) := by
  induction rem with
  | zero =>
    intro s tr it out hinv htr h
    simp only [runLoop] at h
    injection h with h1
    subst h1
    exact htr
  | succ rem ih =>
    intro s tr it out hinv htr h
    simp only [runLoop] at h
    split at h
    · exact Except.noConfusion h
    · rename_i s2 log broke heq
      obtain ⟨hrms, hcut, hconv, hnext⟩ :=
        iterBody_rmse_round hinv heq
      have hlog : ∀ r, log.rmsTop = some r →
          (t < r → log.cutIndex = some (rmseCutIdx log.distTop.length p)) ∧
          (r ≤ t → log.removalRan = false ∧ log.finEnd = true) := by
        intro r hr
        rw [hrms] at hr
        injection hr with hr2
        subst hr2
        constructor
        · intro hlt
          exact hcut hlt
        · intro hle
          obtain ⟨ha, hb, _⟩ := hconv hle
          exact ⟨ha, hb⟩
      have htr2 : ∀ lg ∈ tr ++ [log], ∀ r, lg.rmsTop = some r →
          (t < r → lg.cutIndex = some (rmseCutIdx lg.distTop.length p)) ∧
          (r ≤ t → lg.removalRan = false ∧ lg.finEnd = true) := by
        intro lg hlg
        rcases List.mem_append.mp hlg with h1 | h1
        · exact htr lg h1
        · rw [List.mem_singleton.mp h1]
          exact hlog
      split at h
      · injection h with h1
        subst h1
        exact htr2
      · rename_i hnb
        have hb : broke = false := by
          cases broke with
          | false => rfl
          | true => exact absurd rfl hnb
        obtain ⟨_, hnext2⟩ := hnext hb
        exact ih s2 (tr ++ [log]) (it + 1) out hnext2 htr2 h

/-- **C2.**  In the RMSE-target variant, in every completed iteration whose
current global RMS exceeds `target_threshold`, the recorded cut index is
`floor(len(distribution) * (100 - target_percent) / 100)`; and in every
iteration whose current RMS is at or below `target_threshold`, the
removal/optimisation block is skipped (no removal that round) and the
round ends with `fin = True`, breaking the loop into the converged exit. -/
theorem claim2_rmse_variant (t p tie_acc maxIter : ℚ) (rmsF : Recon → ℚ)
    (opt : Recon → Recon) (c0 : Chunk) (res : RunResult) (hp : p ≤ 100)
    (h : executeStep true t p tie_acc maxIter rmsF opt c0 = Except.ok res) :
    ∀ log ∈ res.trace, ∀ r, log.rmsTop = some r →
      (t < r → log.cutIndex = some ⌊(log.distTop.length : ℚ) * ((100 - p) / 100)⌋) ∧
      (r ≤ t → log.removalRan = false ∧ log.finEnd = true) := by
  simp only [executeStep] at h
  split at h
  · exact Except.noConfusion h
  · rename_i broke s1 tr heq
    obtain ⟨_, _, _, _, _, htr, _, _, _⟩ := finishRun_ok h
    intro log hlog r hr
    have := runLoop_rmse_P t p rmsF opt (pyTrunc maxIter).toNat
      ⟨{ c0 with tiepoint_accuracy := tie_acc }, none, false, [], ⟨[]⟩⟩ [] 0 (broke, s1, tr)
      (by intro hc; exact absurd hc (by simp [truthy]))
      (by intro lg hlg; exact absurd hlg (List.not_mem_nil lg))
      heq log (by rw [htr] at hlog; exact hlog) r hr
    obtain ⟨h1, h2⟩ := this
    refine ⟨fun hlt => ?_, h2⟩
    rw [h1 hlt, rmseCutIdx_floor _ hp]

def c2run : Except Crash RunResult :=
  executeStep true 1 10 1 2 (fun r => (countValid r.valid : ℚ)) id
    ⟨⟨[true, true, true], [1, 2, 3]⟩, 0⟩

def c2res : RunResult := c2run.toOption.getD default

/-- **C2 (witness).**  The RMSE-variant guarantee evaluated on a concrete
two-iteration run whose RMS (modelled as the number of valid points)
starts above the target and reaches it after the second removal. -/
theorem claim2_witness :
    ((10 : ℚ) ≤ 100 ∧ c2run = Except.ok c2res) ∧
    (∀ log ∈ c2res.trace, ∀ r, log.rmsTop = some r →
      ((1 : ℚ) < r → log.cutIndex = some ⌊(log.distTop.length : ℚ) * ((100 - 10) / 100)⌋) ∧
      (r ≤ 1 → log.removalRan = false ∧ log.finEnd = true)) :=
  ⟨⟨by decide, by rfl⟩, claim2_rmse_variant 1 10 1 2 (fun r => (countValid r.valid : ℚ)) id
    ⟨⟨[true, true, true], [1, 2, 3]⟩, 0⟩ c2res (by decide) (by rfl)⟩

theorem resampleStep_ok_true {fcur : PFilter} {r2 : Recon} {c2 : Chunk}
    {res : Option (List ℚ)} (h : resampleStep true fcur r2 c2 = Except.ok res) :
    ∃ L, res = some L ∧ sampleValid fcur r2.valid = some L := by
  unfold resampleStep at h
  rw [if_pos rfl] at h
  cases hs : sampleValid fcur r2.valid with
  | none => rw [hs] at h; exact Except.noConfusion h
  | some L =>
    rw [hs] at h
    injection h with h1
    exact ⟨L, h1.symm, rfl⟩

theorem finRecheck_ok_fcur {t : ℚ} {blockRan fin1 : Bool} {f0 : PFilter} {r2 : Recon}
    {c2 : Chunk} {fcur : PFilter} {fin2 : Bool}
    (h : finRecheck t blockRan fin1 f0 r2 c2 = Except.ok (fcur, fin2)) :
    (fin1 = true → blockRan = true → fcur = filterInit r2) ∧
    (fin1 = false → fcur = f0) ∧ (blockRan = false → fcur = f0) := by
  unfold finRecheck at h
  split at h
  · rename_i hbr
    split at h
    · rename_i hf1
      split at h
      · exact Except.noConfusion h
      · injection h with h1
        have h2 : fcur = filterInit r2 := by
          have := congrArg Prod.fst h1
          exact this.symm
        refine ⟨fun _ _ => h2, fun hf => ?_, fun hb => ?_⟩
        · rw [hf1] at hf
          exact Bool.noConfusion hf
        · rw [hbr] at hb
          exact Bool.noConfusion hb
    · rename_i hf1
      injection h with h1
      have h2 : fcur = f0 := (congrArg Prod.fst h1).symm
      exact ⟨fun hf _ => absurd hf hf1, fun _ => h2, fun _ => h2⟩
  · rename_i hbr
    injection h with h1
    have h2 : fcur = f0 := (congrArg Prod.fst h1).symm
    refine ⟨fun _ hb => absurd hb hbr, fun _ => h2, fun _ => h2⟩

theorem finishIter_perc_some {t : ℚ} {rmsF : Recon → ℚ} {s : LoopSt}
    {lvv : List ℚ} {th : Option ℚ} {fin1 ov : Bool} {rmsTop : Option ℚ}
    {cutIdx : Option ℤ} {r2 : Recon} {c2 : Chunk} {rmValid : Option (List Bool)}
    {fcur : PFilter} {fin2 : Bool} {L : List ℚ} :
    (finishIter false t rmsF s lvv th fin1 ov rmsTop cutIdx r2 c2 rmValid fcur fin2
        (some L)).2.1.npointsAppended = some (L.countP (fun x => decide (t < x))) ∧
    (finishIter false t rmsF s lvv th fin1 ov rmsTop cutIdx r2 c2 rmValid fcur fin2
        (some L)).2.2 = decide (L.countP (fun x => decide (t < x)) ≤ 10) :=
  ⟨rfl, rfl⟩

theorem finishIter_hist_np {isRMSE : Bool} {t : ℚ} {rmsF : Recon → ℚ} {s : LoopSt}
    {lvv : List ℚ} {th : Option ℚ} {fin1 ov : Bool} {rmsTop : Option ℚ}
    {cutIdx : Option ℤ} {r2 : Recon} {c2 : Chunk} {rmValid : Option (List Bool)}
    {fcur : PFilter} {fin2 : Bool} {res : Option (List ℚ)} :
    (finishIter isRMSE t rmsF s lvv th fin1 ov rmsTop cutIdx r2 c2 rmValid fcur fin2 res).1.hist
      = s.hist ++ (finishIter isRMSE t rmsF s lvv th fin1 ov rmsTop cutIdx r2 c2 rmValid
          fcur fin2 res).2.1.npointsAppended.toList := by
  cases res <;> cases isRMSE <;> simp [finishIter]

theorem iterBody_hist_np {isRMSE : Bool} {t p : ℚ} {rmsF : Recon → ℚ} {opt : Recon → Recon}
    {s : LoopSt} {it : ℕ} {out : LoopSt × IterLog × Bool}
    (h : iterBody isRMSE t p rmsF opt s it = Except.ok out) :
    out.1.hist = s.hist ++ out.2.1.npointsAppended.toList := by
  obtain ⟨lvv, _, _, hcase⟩ := iterBody_ok_inv h
  rcases hcase with ⟨_, sc, _, ha⟩ | ⟨_, _, v, _, ha⟩ | ⟨_, _, ha⟩ <;>
    · obtain ⟨fcur, fin2, res, _, _, hout⟩ := afterSearch_ok_inv ha
      rw [hout]
      exact finishIter_hist_np

theorem runLoop_hist_filterMap (isRMSE : Bool) (t p : ℚ) (rmsF : Recon → ℚ)
    (opt : Recon → Recon) (rem : ℕ) :
    ∀ (s : LoopSt) (tr : List IterLog) (it : ℕ) (out : Bool × LoopSt × List IterLog),
    s.hist = tr.filterMap (fun l => l.npointsAppended) →
    runLoop isRMSE t p rmsF opt s tr it rem = Except.ok out →
    out.2.1.hist = out.2.2.filterMap (fun l => l.npointsAppended) := by
  induction rem with
  | zero =>
    intro s tr it out hs h
    simp only [runLoop] at h
    injection h with h1
    subst h1
    exact hs
  | succ rem ih =>
    intro s tr it out hs h
    simp only [runLoop] at h
    split at h
    · exact Except.noConfusion h
    · rename_i s2 log broke heq
      have hstep := iterBody_hist_np heq
      have hnew : s2.hist = (tr ++ [log]).filterMap (fun l => l.npointsAppended) := by
        rw [List.filterMap_append, ← hs, hstep]
        cases hnp : log.npointsAppended <;> simp [hnp]
      split at h
      · injection h with h1
        subst h1
        exact hnew
      · exact ih s2 (tr ++ [log]) (it + 1) out hnew h

theorem runLoop_trace_mem (isRMSE : Bool) (t p : ℚ) (rmsF : Recon → ℚ)
    (opt : Recon → Recon) (rem : ℕ) :
    ∀ (s : LoopSt) (tr : List IterLog) (it : ℕ) (out : Bool × LoopSt × List IterLog),
    runLoop isRMSE t p rmsF opt s tr it rem = Except.ok out →
    ∀ log ∈ out.2.2, log ∈ tr ∨
      ∃ s3 it3 out3, iterBody isRMSE t p rmsF opt s3 it3 = Except.ok out3 ∧ out3.2.1 = log := by
  induction rem with
  | zero =>
    intro s tr it out h log hlog
    simp only [runLoop] at h
    injection h with h1
    subst h1
    exact Or.inl hlog
  | succ rem ih =>
    intro s tr it out h log hlog
    simp only [runLoop] at h
    split at h
    · exact Except.noConfusion h
    · rename_i s2 lg broke heq
      have hmem : log ∈ tr ++ [lg] → log ∈ tr ∨
          ∃ s3 it3 out3, iterBody isRMSE t p rmsF opt s3 it3 = Except.ok out3 ∧ out3.2.1 = log := by
        intro hm
        rcases List.mem_append.mp hm with h1 | h1
        · exact Or.inl h1
        · right
          exact ⟨s, it, (s2, lg, broke), heq, (List.mem_singleton.mp h1).symm⟩
      split at h
      · injection h with h1
        subst h1
        exact hmem hlog
      · rcases ih s2 (tr ++ [lg]) (it + 1) out h log hlog with h1 | h1
        · exact hmem h1
        · exact Or.inr h1

theorem iterBody_perc_round {t p : ℚ} {rmsF : Recon → ℚ} {opt : Recon → Recon}
    {s : LoopSt} {it : ℕ} {out : LoopSt × IterLog × Bool}
    (h : iterBody false t p rmsF opt s it = Except.ok out)
    (hrm : out.2.1.removalRan = true) :
    ∃ L, out.2.1.resampled = some L ∧
      out.2.1.npointsAppended = some (L.countP (fun x => decide (t < x))) ∧
      (out.2.1.finEnd = true ↔ L.countP (fun x => decide (t < x)) ≤ 10) ∧
      out.2.2 = out.2.1.finEnd := by
  obtain ⟨lvv, _, _, hcase⟩ := iterBody_ok_inv h
  rcases hcase with ⟨_, sc, hscan, ha⟩ | ⟨hf, _⟩ | ⟨hf, _⟩
  · obtain ⟨fcur, fin2, res, hfr, hrs, hout⟩ := afterSearch_ok_inv ha
    rw [hout] at hrm ⊢
    have htr : truthy sc.threshold = true := hrm
    rw [htr] at hrs
    obtain ⟨L, hres, hsv⟩ := resampleStep_ok_true hrs
    subst hres
    refine ⟨L, rfl, rfl, ?_, rfl⟩
    show decide (L.countP (fun x => decide (t < x)) ≤ 10) = true ↔
      L.countP (fun x => decide (t < x)) ≤ 10
    simp
  · exact Bool.noConfusion hf
  · exact Bool.noConfusion hf

/-- **C6.**  For the percentile variants, in every iteration where removal
and re-optimisation were performed (`if threshold:` was truthy), the round
ends converged (`fin = True`, breaking the loop into the converged exit)
if and only if the recomputed above-threshold count of the re-sampled
distribution is at most 10; that count is appended to the per-iteration
history exactly in those rounds, so the final history is the in-order
collection of the appended counts. -/
theorem claim6_converged_iff_slack (t p tie_acc maxIter : ℚ) (rmsF : Recon → ℚ)
    (opt : Recon → Recon) (c0 : Chunk) (res : RunResult)
    (h : executeStep false t p tie_acc maxIter rmsF opt c0 = Except.ok res) :
    res.hist = res.trace.filterMap (fun l => l.npointsAppended) ∧
    ∀ log ∈ res.trace, log.removalRan = true →
      ∃ L, log.resampled = some L ∧
        log.npointsAppended = some (L.countP (fun x => decide (t < x))) ∧
        (log.finEnd = true ↔ L.countP (fun x => decide (t < x)) ≤ 10) := by
  simp only [executeStep] at h
  split at h
  · exact Except.noConfusion h
  · rename_i broke s1 tr heq
    obtain ⟨_, hh, _, _, _, htr, _, _, _⟩ := finishRun_ok h
    constructor
    · rw [hh, htr]
      exact runLoop_hist_filterMap false t p rmsF opt (pyTrunc maxIter).toNat
        ⟨{ c0 with tiepoint_accuracy := tie_acc }, none, false, [], ⟨[]⟩⟩ [] 0
        (broke, s1, tr) (by rfl) heq
    · intro log hlog hrm
      have hmem := runLoop_trace_mem false t p rmsF opt (pyTrunc maxIter).toNat
        ⟨{ c0 with tiepoint_accuracy := tie_acc }, none, false, [], ⟨[]⟩⟩ [] 0
        (broke, s1, tr) heq log (by rw [htr] at hlog; exact hlog)
      rcases hmem with h1 | ⟨s3, it3, out3, hib, hlg⟩
      · exact absurd h1 (List.not_mem_nil log)
      · subst hlg
        obtain ⟨L, h1, h2, h3, _⟩ := iterBody_perc_round hib hrm
        exact ⟨L, h1, h2, h3⟩

def c6run : Except Crash RunResult :=
  executeStep false 2 1 1 1 (fun _ => 1) id ⟨⟨[true, true, true], [1, 2, 3]⟩, 0⟩

def c6res : RunResult := c6run.toOption.getD default

/-- **C6 (witness).**  The convergence-slack guarantee evaluated on a
concrete one-iteration percentile run that removes the top point and
converges with zero points left above the target. -/
theorem claim6_witness :
    c6run = Except.ok c6res ∧
    (c6res.hist = c6res.trace.filterMap (fun l => l.npointsAppended) ∧
      ∀ log ∈ c6res.trace, log.removalRan = true →
        ∃ L, log.resampled = some L ∧
          log.npointsAppended = some (L.countP (fun x => decide ((2 : ℚ) < x))) ∧
          (log.finEnd = true ↔ L.countP (fun x => decide ((2 : ℚ) < x)) ≤ 10)) :=
  ⟨by rfl, claim6_converged_iff_slack 2 1 1 1 (fun _ => 1) id
    ⟨⟨[true, true, true], [1, 2, 3]⟩, 0⟩ c6res (by rfl)⟩

theorem iterBody_perc_resample {t p : ℚ} {rmsF : Recon → ℚ} {opt : Recon → Recon}
    {s : LoopSt} {it : ℕ} {out : LoopSt × IterLog × Bool}
    (h : iterBody false t p rmsF opt s it = Except.ok out) :
    sampleValid (filterInit out.2.1.chunkTop.recon) out.2.1.chunkTop.recon.valid
        = some out.2.1.distTop ∧
    (out.2.1.removalRan = true →
      out.2.1.resampled = sampleValid
        (if out.2.1.scanFin then filterInit out.2.1.chunkAfter.recon
          else filterInit out.2.1.chunkTop.recon)
        out.2.1.chunkAfter.recon.valid) := by
  obtain ⟨lvv, hsmp, _, hcase⟩ := iterBody_ok_inv h
  rcases hcase with ⟨_, sc, hscan, ha⟩ | ⟨hf, _⟩ | ⟨hf, _⟩
  · obtain ⟨fcur, fin2, res, hfr, hrs, hout⟩ := afterSearch_ok_inv ha
    rw [hout]
    refine ⟨hsmp, ?_⟩
    intro hrm
    have htruthy : truthy sc.threshold = true := hrm
    rw [htruthy] at hrs
    obtain ⟨L, hres, hsv⟩ := resampleStep_ok_true hrs
    subst hres
    obtain ⟨hf1, hf2, _⟩ := finRecheck_ok_fcur hfr
    have hfc : fcur = (if sc.fin then
        filterInit (afterRecon opt s.chunk (filterInit s.chunk.recon) sc.threshold)
        else filterInit s.chunk.recon) := by
      cases hsf : sc.fin with
      | true =>
        rw [if_pos rfl]
        exact hf1 hsf htruthy
      | false =>
        rw [if_neg (by simp)]
        exact hf2 hsf
    rw [hfc] at hsv
    exact hsv.symm
  · exact Bool.noConfusion hf
  · exact Bool.noConfusion hf

def c4run : Except Crash RunResult :=
  executeStep false 1 1 1 1 (fun _ => 1)
    (fun r => { r with vals := r.vals.map (fun _ => (100 : ℚ)) })
    ⟨⟨[true, true, true, true, true], [1, 2, 3, 4, 5]⟩, 0⟩

def c4res : RunResult := c4run.toOption.getD default

def c4log : IterLog := c4res.trace.getD 0 default

/-- **C4 (counterexample).**  A concrete percentile round whose scan runs
to exhaustion (`fin = False`): after removal and an optimisation that
changes every error value to 100, the re-sampled distribution is built
from the *stale* round-top filter object, so it is `[1, 2, 3, 4]` while
the currently-valid points' current values, sorted, are
`[100, 100, 100, 100]` — the claimed invariant fails for the re-sampled
distribution. -/
theorem claim4_counterexample :
    c4run = Except.ok c4res ∧
    c4res.trace = [c4log] ∧
    c4log.removalRan = true ∧
    c4log.scanFin = false ∧
    c4log.resampled = some [1, 2, 3, 4] ∧
    sampleValid (filterInit c4log.chunkAfter.recon) c4log.chunkAfter.recon.valid =
      some [100, 100, 100, 100] ∧
    (some [(1 : ℚ), 2, 3, 4] ≠ some [(100 : ℚ), 100, 100, 100]) :=
  ⟨by rfl, by rfl, by rfl, by rfl, by rfl, by rfl, by decide⟩

/-- **C4 (amended).**  For the percentile variants, the distribution used
for the threshold search at the top of every round is exactly the
currently-valid points' current values, sorted ascending.  The re-sampled
distribution after removal and re-optimisation satisfies the same
invariant only in rounds whose scan broke via back-off (`fin = True`, the
filter is then re-initialised); in rounds whose scan ran to exhaustion it
is the round-top value snapshot filtered by the post-removal validity
flags. -/
theorem claim4_amended (t p tie_acc maxIter : ℚ) (rmsF : Recon → ℚ)
    (opt : Recon → Recon) (c0 : Chunk) (res : RunResult)
    (h : executeStep false t p tie_acc maxIter rmsF opt c0 = Except.ok res) :
    ∀ log ∈ res.trace,
      sampleValid (filterInit log.chunkTop.recon) log.chunkTop.recon.valid
          = some log.distTop ∧
      (log.removalRan = true →
        log.resampled = sampleValid
          (if log.scanFin then filterInit log.chunkAfter.recon
            else filterInit log.chunkTop.recon)
          log.chunkAfter.recon.valid) := by
  simp only [executeStep] at h
  split at h
  · exact Except.noConfusion h
  · rename_i broke s1 tr heq
    obtain ⟨_, _, _, _, _, htr, _, _, _⟩ := finishRun_ok h
    intro log hlog
    have hmem := runLoop_trace_mem false t p rmsF opt (pyTrunc maxIter).toNat
      ⟨{ c0 with tiepoint_accuracy := tie_acc }, none, false, [], ⟨[]⟩⟩ [] 0
      (broke, s1, tr) heq log (by rw [htr] at hlog; exact hlog)
    rcases hmem with h1 | ⟨s3, it3, out3, hib, hlg⟩
    · exact absurd h1 (List.not_mem_nil log)
    · subst hlg
      exact iterBody_perc_resample hib

/-- **C4 (witness).**  The amended invariant evaluated on the concrete
counterexample run: the round-top distribution satisfies the invariant
and the stale-branch characterisation matches the observed re-sample. -/
theorem claim4_witness :
    c4run = Except.ok c4res ∧
    (∀ log ∈ c4res.trace,
      sampleValid (filterInit log.chunkTop.recon) log.chunkTop.recon.valid
          = some log.distTop ∧
      (log.removalRan = true →
        log.resampled = sampleValid
          (if log.scanFin then filterInit log.chunkAfter.recon
            else filterInit log.chunkTop.recon)
          log.chunkAfter.recon.valid)) :=
  ⟨by rfl, claim4_amended 1 1 1 1 (fun _ => 1)
    (fun r => { r with vals := r.vals.map (fun _ => (100 : ℚ)) })
    ⟨⟨[true, true, true, true, true], [1, 2, 3, 4, 5]⟩, 0⟩ c4res (by rfl)⟩

theorem scanLo_le_9900 {p : ℚ} (hp1 : 1 ≤ p) (hp2 : p ≤ 100) : scanLo p ≤ 9900 := by
  have hp0 : (0 : ℚ) ≤ p := le_trans zero_le_one hp1
  have htr : pyTrunc p = ⌊p⌋ := pyTrunc_of_nonneg hp0
  have h1z : (1 : ℤ) ≤ ⌊p⌋ := by
    rw [Int.le_floor]
    exact_mod_cast hp1
  have h2z : ⌊p⌋ ≤ 100 := by
    have h := Int.floor_le_floor hp2
    have h100 : ⌊(100 : ℚ)⌋ = 100 := by norm_num
    rw [h100] at h
    exact h
  rw [scanLo, htr]
  omega

theorem sampleValid_sorted {f : PFilter} {valid : List Bool} {L : List ℚ}
    (h : sampleValid f valid = some L) : List.Sorted (fun a b => a ≤ b) L := by
  unfold sampleValid at h
  split at h
  · injection h with h1
    rw [← h1]
    exact List.sorted_insertionSort (fun a b => a ≤ b) _
  · exact Option.noConfusion h

theorem truthy_some_of_ne {v : ℚ} (h : v ≠ 0) : truthy (some v) = true := by
  simp [truthy, h]

theorem iterBody_perc_overflow {t p : ℚ} {rmsF : Recon → ℚ} {opt : Recon → Recon}
    {s : LoopSt} {it : ℕ} {out : LoopSt × IterLog × Bool}
    (hp1 : 1 ≤ p) (hp2 : p ≤ 100)
    (h : iterBody false t p rmsF opt s it = Except.ok out)
    (hne : out.2.1.distTop ≠ [])
    (hlen : out.2.1.distTop.length ≤ 10000)
    (hmax : out.2.1.distTop.getLast hne < t)
    (hpos : (0 : ℚ) < out.2.1.distTop.getLast hne) :
    out.2.1.scanOverflow = true ∧
    out.2.1.thresholdAtCheck = some (out.2.1.distTop.getLast hne) ∧
    out.2.1.removalRan = true := by
  obtain ⟨lvv, hsmp, _, hcase⟩ := iterBody_ok_inv h
  rcases hcase with ⟨_, sc, hscan, ha⟩ | ⟨hf, _⟩ | ⟨hf, _⟩
  · obtain ⟨fcur, fin2, res, hfr, hrs, hout⟩ := afterSearch_ok_inv ha
    subst hout
    have hsort : List.Sorted (fun a b => a ≤ b) lvv := sampleValid_sorted hsmp
    have hne2 : lvv ≠ [] := hne
    have hlen2 : lvv.length ≤ 10000 := hlen
    have hmax2 : lvv.getLast hne2 < t := hmax
    have hpos2 : (0 : ℚ) < lvv.getLast hne2 := hpos
    have hlo9 : scanLo p ≤ 9998 := by
      have := scanLo_le_9900 hp1 hp2
      omega
    have hresult := @scanBody_top_lt lvv t (scanLo p) hsort hne2 hlen2 hlo9
      ⟨s.threshold, s.fin, false⟩ hmax2
    rw [hscan] at hresult
    injection hresult with hsc
    subst hsc
    refine ⟨rfl, rfl, ?_⟩
    exact truthy_some_of_ne (ne_of_gt hpos2)
  · exact Bool.noConfusion hf
  · exact Bool.noConfusion hf

def c5run : Except Crash RunResult :=
  executeStep false 10 20 1 1 (fun _ => 1) id ⟨⟨[true, true, true], [1, 2, 3]⟩, 0⟩

def c5res : RunResult := c5run.toOption.getD default

def c5log : IterLog := c5res.trace.getD 0 default

/-- **C5 (counterexample).**  A concrete percentile round in which the
back-off step computes an index beyond the end of the distribution
(`scanOverflow = true`), yet the round is *not* treated as "no threshold":
the scan resumes and selects threshold 3, the removal/optimisation block
runs and invalidates a point, and the run converges and terminates in
that same round — contradicting "no points are removed that round, the
run does not terminate on that event, and the loop proceeds to re-check
convergence in the next iteration". -/
theorem claim5_counterexample :
    c5run = Except.ok c5res ∧
    c5res.iterations = 1 ∧ c5res.converged = true ∧
    c5log.scanOverflow = true ∧
    c5log.thresholdAtCheck = some 3 ∧
    c5log.removalRan = true ∧
    c5log.chunkTop.recon.valid = [true, true, true] ∧
    c5log.validAfterRemoval = some [true, true, false] ∧
    ([true, true, false] ≠ [true, true, true]) :=
  ⟨by rfl, by rfl, by rfl, by rfl, by rfl, by rfl, by rfl, by rfl, by decide⟩

/-- **C5 (amended).**  For the percentile variants with `1 ≤ p ≤ 100`, in
any completed round whose (nonempty, at most 10000-point) distribution
lies entirely strictly below the target threshold with a positive
maximum, the back-off `IndexError` does occur (`scanOverflow = true`) but
the round is not treated as "no threshold": the scan resumes and selects
the distribution maximum as the threshold, and the removal/optimisation
block runs that same round. -/
theorem claim5_amended (t p tie_acc maxIter : ℚ) (rmsF : Recon → ℚ)
    (opt : Recon → Recon) (c0 : Chunk) (res : RunResult)
    (hp1 : 1 ≤ p) (hp2 : p ≤ 100)
    (h : executeStep false t p tie_acc maxIter rmsF opt c0 = Except.ok res) :
    ∀ log ∈ res.trace, ∀ hne : log.distTop ≠ [],
      log.distTop.length ≤ 10000 →
      log.distTop.getLast hne < t →
      (0 : ℚ) < log.distTop.getLast hne →
      log.scanOverflow = true ∧
      log.thresholdAtCheck = some (log.distTop.getLast hne) ∧
      log.removalRan = true := by
  simp only [executeStep] at h
  split at h
  · exact Except.noConfusion h
  · rename_i broke s1 tr heq
    obtain ⟨_, _, _, _, _, htr, _, _, _⟩ := finishRun_ok h
    intro log hlog hne hlen hmax hpos
    have hmem := runLoop_trace_mem false t p rmsF opt (pyTrunc maxIter).toNat
      ⟨{ c0 with tiepoint_accuracy := tie_acc }, none, false, [], ⟨[]⟩⟩ [] 0
      (broke, s1, tr) heq log (by rw [htr] at hlog; exact hlog)
    rcases hmem with h1 | ⟨s3, it3, out3, hib, hlg⟩
    · exact absurd h1 (List.not_mem_nil log)
    · subst hlg
      exact iterBody_perc_overflow hp1 hp2 hib hne hlen hmax hpos

/-- **C5 (witness).**  The amended statement evaluated on the concrete
counterexample run: its single round satisfies all the hypotheses and the
amended conclusions. -/
theorem claim5_witness :
    (c5run = Except.ok c5res ∧ c5log ∈ c5res.trace ∧
      c5log.distTop ≠ [] ∧ c5log.distTop.length ≤ 10000) ∧
    (c5log.scanOverflow = true ∧
      c5log.thresholdAtCheck = some (c5log.distTop.getLast (by decide)) ∧
      c5log.removalRan = true) :=
  ⟨⟨by rfl, by rw [show c5res.trace = [c5log] from rfl]; exact List.mem_singleton_self c5log,
    by decide, by decide⟩,
    claim5_amended 10 20 1 1 (fun _ => 1) id ⟨⟨[true, true, true], [1, 2, 3]⟩, 0⟩ c5res
      (by decide) (by decide) (by rfl) c5log
      (by rw [show c5res.trace = [c5log] from rfl]; exact List.mem_singleton_self c5log)
      (by decide) (by decide) (by decide) (by decide)⟩

/-- **C8 (counterexample).**  Invoking a step with the out-of-range
`max_iterations = 0` does not surface an error before mutation: the
chunk's tie point accuracy is first overwritten (1 becomes 2, line 1148),
the loop body never runs, and only then does the after-loop code fail
(`it` is unbound, a `NameError`) — the escaping error carries the already
mutated chunk. -/
theorem claim8_counterexample :
    executeStep false 1 50 2 0 (fun _ => 1) id ⟨⟨[true], [1]⟩, 1⟩ =
      Except.error ⟨PyErr.nameError, ⟨⟨[true], [1]⟩, 2⟩⟩ ∧
    ((2 : ℚ) ≠ 1) :=
  ⟨by rfl, by decide⟩

/-- **C8 (amended).**  A non-numeric `target_percent`, `target_threshold`
or `max_iterations` raises during the `float(...)` conversions built into
the `executeStep` call of `runButtonClicked`, so the error surfaces before
`executeStep` runs and the chunk is untouched.  Out-of-range values are
not validated at all: `executeStep` overwrites the chunk's tie point
accuracy before any check, and with `max_iterations = 0` the run fails
only after that mutation (`NameError`, the loop variable is unbound). -/
theorem claim8_amended :
    (∀ (tt mi : Option ℚ) (isRMSE : Bool) (tie_acc : ℚ) (rmsF : Recon → ℚ)
        (opt : Recon → Recon) (c : Chunk),
      runButtonClicked none tt mi isRMSE tie_acc rmsF opt c =
        Except.error ⟨PyErr.valueError, c⟩) ∧
    (∀ (p : ℚ) (mi : Option ℚ) (isRMSE : Bool) (tie_acc : ℚ) (rmsF : Recon → ℚ)
        (opt : Recon → Recon) (c : Chunk),
      runButtonClicked (some p) none mi isRMSE tie_acc rmsF opt c =
        Except.error ⟨PyErr.valueError, c⟩) ∧
    (∀ (p t : ℚ) (isRMSE : Bool) (tie_acc : ℚ) (rmsF : Recon → ℚ)
        (opt : Recon → Recon) (c : Chunk),
      runButtonClicked (some p) (some t) none isRMSE tie_acc rmsF opt c =
        Except.error ⟨PyErr.valueError, c⟩) ∧
    (∀ (isRMSE : Bool) (t p tie_acc : ℚ) (rmsF : Recon → ℚ) (opt : Recon → Recon)
        (c0 : Chunk),
      executeStep isRMSE t p tie_acc 0 rmsF opt c0 =
        Except.error ⟨PyErr.nameError, { c0 with tiepoint_accuracy := tie_acc }⟩) :=
  ⟨fun _ _ _ _ _ _ _ => rfl, fun _ _ _ _ _ _ _ => rfl, fun _ _ _ _ _ _ _ => rfl,
    fun _ _ _ _ _ _ _ => rfl⟩

inductive CamType
  | regular
  | keyframe
deriving DecidableEq, Repr, Inhabited

/-- A camera as `getNumProjectionsLowerThan` sees it: its type, whether it
has a pose (`camera.transform`), and the track ids of its projections. -/
structure PCamera where
  ctype : CamType
  transform : Bool
  projTracks : List ℕ
deriving DecidableEq, Repr, Inhabited

/-- A sparse-cloud point: its track id and validity flag. -/
structure PCPoint where
  track_id : ℕ
  valid : Bool
deriving DecidableEq, Repr, Inhabited

/-- The chunk data `getNumProjectionsLowerThan` reads. -/
structure CamChunk where
  cameras : List PCamera
  points : List PCPoint
  ntracks : ℕ
deriving DecidableEq, Repr, Inhabited

/-- Python `arr[i] = v` on a list: `IndexError` out of range. -/
def setAt (l : List ℤ) (i : ℕ) (v : ℤ) : Option (List ℤ) :=
  if i < l.length then some (l.set i v) else none

/-- Lines 1518-1523: `point_ids = [-1] * len(tracks)` followed by
`point_ids[points[point_id].track_id] = point_id` for every point index. -/
def buildPointIds (pts : List PCPoint) (ntracks : ℕ) : Option (List ℤ) :=
  pts.enum.foldlM (fun arr pr => setAt arr pr.2.track_id (pr.1 : ℤ))
    (List.replicate ntracks (-1))

/-- One step of the projection loop (lines 1535-1543): look up
`point_ids[track_id]` (`IndexError` out of range), skip `point_id < 0`
and invalid points, count the rest. -/
def camProjStep (pointIds : List ℤ) (pts : List PCPoint) (n : ℕ) (tid : ℕ) : Option ℕ :=
  match pointIds[tid]? with
  | none => none
  | some pid =>
    if pid < 0 then some n
    else match pts[pid.toNat]? with
      | none => none
      | some pt => some (if pt.valid then n + 1 else n)

/-- Lines 1535-1543: the number of projections of one camera that map to a
currently-valid point. -/
def camProjCount (pointIds : List ℤ) (pts : List PCPoint) (cam : PCamera) : Option ℕ :=
  cam.projTracks.foldlM (camProjStep pointIds pts) 0

/-- `getNumProjectionsLowerThan` (lines 1507-1553): count the enabled-pass
cameras (`cameras_with_proj`) whose valid-projection count is below 100,
then add `len(chunk.cameras) - cameras_with_proj` — every camera skipped
in the loop, i.e. keyframes as well as cameras without a pose. -/
def getNumProjectionsLowerThan (ch : CamChunk) : Option ℕ :=
  match buildPointIds ch.points ch.ntracks with
  | none => none
  | some pointIds =>
    match ch.cameras.foldlM (fun (acc : ℕ × ℕ) cam =>
      if cam.ctype = CamType.keyframe then some acc
      else if cam.transform = false then some acc
      else match camProjCount pointIds ch.points cam with
        | none => none
        | some np => some (if np < 100 then (acc.1 + 1, acc.2 + 1) else (acc.1, acc.2 + 1)))
      ((0, 0) : ℕ × ℕ) with
    | none => none
    | some sc => some (sc.1 + (ch.cameras.length - sc.2))

/-- The low-projection count as claim C9 words it: cameras with a pose and
fewer than 100 valid-point projections, plus all cameras with no pose —
with keyframe-type cameras excluded from the count entirely. -/
def claimLowProjCount (ch : CamChunk) : Option ℕ :=
  match buildPointIds ch.points ch.ntracks with
  | none => none
  | some pointIds =>
    ch.cameras.foldlM (fun (acc : ℕ) cam =>
      if cam.ctype = CamType.keyframe then some acc
      else if cam.transform = false then some (acc + 1)
      else match camProjCount pointIds ch.points cam with
        | none => none
        | some np => some (if np < 100 then acc + 1 else acc)) 0

/-- Whether the code counts this camera in its below-100 pass. -/
def lowProjB (pointIds : List ℤ) (pts : List PCPoint) (cam : PCamera) : Bool :=
  (!decide (cam.ctype = CamType.keyframe)) && cam.transform &&
    (match camProjCount pointIds pts cam with
      | some np => decide (np < 100)
      | none => false)

/-- Whether the code skips this camera in its counting pass (keyframe or
no pose) — exactly the cameras added back by
`len(chunk.cameras) - cameras_with_proj`. -/
def skippedB (cam : PCamera) : Bool :=
  decide (cam.ctype = CamType.keyframe) || !cam.transform

theorem camFold_spec (pointIds : List ℤ) (pts : List PCPoint) :
    ∀ (cams : List PCamera) (acc : ℕ × ℕ) (out : ℕ × ℕ),
    cams.foldlM (fun (acc : ℕ × ℕ) cam =>
      if cam.ctype = CamType.keyframe then some acc
      else if cam.transform = false then some acc
      else match camProjCount pointIds pts cam with
        | none => none
        | some np => some (if np < 100 then (acc.1 + 1, acc.2 + 1) else (acc.1, acc.2 + 1)))
      acc = some out →
    out.1 = acc.1 + cams.countP (lowProjB pointIds pts) ∧
    out.2 = acc.2 + cams.countP (fun c => !skippedB c) := by
  intro cams
  induction cams with
  | nil =>
    intro acc out h
    injection h with h1
    subst h1
    simp
  | cons c cs ih =>
    intro acc out h
    rw [List.foldlM_cons] at h
    by_cases hkf : c.ctype = CamType.keyframe
    · simp only [if_pos hkf] at h
      obtain ⟨h1, h2⟩ := ih acc out h
      refine ⟨?_, ?_⟩
      · rw [h1, List.countP_cons]
        have hb : lowProjB pointIds pts c = false := by
          simp [lowProjB, hkf]
        rw [hb]
        simp
      · rw [h2, List.countP_cons]
        have hs : (!skippedB c) = false := by
          simp [skippedB, hkf]
        rw [hs]
        simp
    · simp only [if_neg hkf] at h
      by_cases htf : c.transform = false
      · simp only [if_pos htf] at h
        obtain ⟨h1, h2⟩ := ih acc out h
        refine ⟨?_, ?_⟩
        · rw [h1, List.countP_cons]
          have hb : lowProjB pointIds pts c = false := by
            simp [lowProjB, htf]
          rw [hb]
          simp
        · rw [h2, List.countP_cons]
          have hs : (!skippedB c) = false := by
            simp [skippedB, htf]
          rw [hs]
          simp
      · simp only [if_neg htf] at h
        have htt : c.transform = true := by
          cases hx : c.transform with
          | false => exact absurd hx htf
          | true => rfl
        cases hcp : camProjCount pointIds pts c with
        | none =>
          rw [hcp] at h
          exact Option.noConfusion h
        | some np =>
          rw [hcp] at h
          have hmain : List.foldlM (fun (acc : ℕ × ℕ) cam =>
              if cam.ctype = CamType.keyframe then some acc
              else if cam.transform = false then some acc
              else match camProjCount pointIds pts cam with
                | none => none
                | some np => some (if np < 100 then (acc.1 + 1, acc.2 + 1) else (acc.1, acc.2 + 1)))
              (if np < 100 then (acc.1 + 1, acc.2 + 1) else (acc.1, acc.2 + 1)) cs = some out := h
          have hs : (!skippedB c) = true := by
            simp [skippedB, hkf, htt]
          by_cases hlow : np < 100
          · rw [if_pos hlow] at hmain
            obtain ⟨h1, h2⟩ := ih (acc.1 + 1, acc.2 + 1) out hmain
            have hb : lowProjB pointIds pts c = true := by
              simp [lowProjB, hkf, htt, hcp, hlow]
            refine ⟨?_, ?_⟩
            · rw [h1, List.countP_cons, hb]
              simp
              omega
            · rw [h2, List.countP_cons, hs]
              simp
              omega
          · rw [if_neg hlow] at hmain
            obtain ⟨h1, h2⟩ := ih (acc.1, acc.2 + 1) out hmain
            have hb : lowProjB pointIds pts c = false := by
              simp [lowProjB, hcp, hlow]
            refine ⟨?_, ?_⟩
            · rw [h1, List.countP_cons, hb]
              simp
            · rw [h2, List.countP_cons, hs]
              simp
              omega

theorem countP_split {α : Type} (p : α → Bool) :
    ∀ l : List α, l.countP p + l.countP (fun a => !p a) = l.length := by
  intro l
  induction l with
  | nil => rfl
  | cons a l ih =>
    rw [List.countP_cons, List.countP_cons, List.length_cons]
    cases hpa : p a
    · simp [hpa]
      omega
    · simp [hpa]
      omega

/-- **C9 (counterexample).**  A keyframe-type camera is not excluded from
the count: the loop skips it, but the final
`len(chunk.cameras) - cameras_with_proj` (line 1549) adds every skipped
camera back, keyframes included.  On a chunk with a single posed keyframe
camera the code reports 1 low-projection camera where the claimed count
is 0. -/
theorem claim9_counterexample :
    getNumProjectionsLowerThan ⟨[⟨CamType.keyframe, true, []⟩], [], 0⟩ = some 1 ∧
    claimLowProjCount ⟨[⟨CamType.keyframe, true, []⟩], [], 0⟩ = some 0 ∧
    (1 : ℕ) ≠ 0 :=
  ⟨rfl, rfl, by decide⟩

/-- **C9 (amended).**  When `getNumProjectionsLowerThan` returns a count,
it equals the number of non-keyframe posed cameras whose valid-point
projection count is below 100, plus the number of cameras the loop
skipped — that is, keyframe cameras AND cameras with no pose.  Keyframes
are excluded from the below-100 pass but are still counted by the
`len(chunk.cameras) - cameras_with_proj` correction. -/
theorem claim9_amended (ch : CamChunk) (r : ℕ)
    (h : getNumProjectionsLowerThan ch = some r) :
    ∃ pointIds, buildPointIds ch.points ch.ntracks = some pointIds ∧
      r = ch.cameras.countP (lowProjB pointIds ch.points) +
          ch.cameras.countP skippedB := by
  unfold getNumProjectionsLowerThan at h
  cases hb : buildPointIds ch.points ch.ntracks with
  | none =>
    rw [hb] at h
    exact Option.noConfusion h
  | some pointIds =>
    rw [hb] at h
    refine ⟨pointIds, rfl, ?_⟩
    have h1 : (match ch.cameras.foldlM (fun (acc : ℕ × ℕ) cam =>
        if cam.ctype = CamType.keyframe then some acc
        else if cam.transform = false then some acc
        else match camProjCount pointIds ch.points cam with
          | none => none
          | some np => some (if np < 100 then (acc.1 + 1, acc.2 + 1) else (acc.1, acc.2 + 1)))
        ((0, 0) : ℕ × ℕ) with
      | none => none
      | some sc => some (sc.1 + (ch.cameras.length - sc.2))) = some r := h
    cases hf : ch.cameras.foldlM (fun (acc : ℕ × ℕ) cam =>
        if cam.ctype = CamType.keyframe then some acc
        else if cam.transform = false then some acc
        else match camProjCount pointIds ch.points cam with
          | none => none
          | some np => some (if np < 100 then (acc.1 + 1, acc.2 + 1) else (acc.1, acc.2 + 1)))
        ((0, 0) : ℕ × ℕ) with
    | none =>
      rw [hf] at h1
      exact Option.noConfusion h1
    | some sc =>
      rw [hf] at h1
      have h2 : some (sc.1 + (ch.cameras.length - sc.2)) = some r := h1
      injection h2 with h3
      obtain ⟨ha, hb2⟩ := camFold_spec pointIds ch.points ch.cameras (0, 0) sc hf
      have hsplit := countP_split skippedB ch.cameras
      have hnot : ch.cameras.countP (fun c => !skippedB c) ≤ ch.cameras.length := by
        omega
      omega

def c9ch : CamChunk :=
  ⟨[⟨CamType.regular, true, []⟩, ⟨CamType.keyframe, true, []⟩,
    ⟨CamType.regular, false, []⟩], [], 0⟩

theorem claim9_witness :
    ∃ pointIds, buildPointIds c9ch.points c9ch.ntracks = some pointIds ∧
      3 = c9ch.cameras.countP (lowProjB pointIds c9ch.points) +
          c9ch.cameras.countP skippedB :=
  claim9_amended c9ch 3 (by rfl)
